/-
Verification of the 3dmap tile-to-heightfield pipeline.

This file gives a shallow embedding, in Lean 4 over exact rational /
real arithmetic, of the core numeric pipeline of the repository:

* `src/lib/terrainFilters.ts` — Terrain-RGB decoding with the 8000 m
  safety cap, the capping filter, the Hampel (5×5 median/MAD) filter,
  and the filter dispatcher;
* `src/lib/tileStitcher.ts`   — the stitcher's pure geometry and the
  exported (uncapped) heightmap decoder;
* `src/lib/tileUtils.ts`      — tile geometry: zoom selection and
  bounding-box → tile enumeration (the external `@mapbox/tilebelt`
  helpers are modelled from the spec, see below);
* `src/components/MapCanvas.tsx` — the mesh displacer: bilinear
  heightfield sampling and the two scale modes.

JavaScript `number` arithmetic is modelled by `ℚ` where the code is
purely arithmetical and by `ℝ` where it is transcendental (the
web-mercator formulas).  `Float32Array` stores are modelled as exact.
-/
import Mathlib

namespace TerrainProof

/-! ## Sorting

`array.sort((a, b) => a - b)` sorts numerically.  We model it by
insertion sort with `(· ≤ ·)`: for a linear order any comparison sort
produces this same list, so the model is exact. -/

/-- Numeric ascending sort, the model of `[...values].sort((a, b) => a - b)`. -/
def jsSortAsc (values : List ℚ) : List ℚ :=
  List.insertionSort (· ≤ ·) values

/-! ## `src/lib/terrainFilters.ts` -/

namespace terrainFilters

/-- `MAX_SPIKE_HEIGHT = 3500` (terrainFilters.ts). -/
def MAX_SPIKE_HEIGHT : ℚ := 3500

/-- `ABSOLUTE_MAX_HEIGHT = 8000` (terrainFilters.ts). -/
def ABSOLUTE_MAX_HEIGHT : ℚ := 8000

/-- `HAMPEL_THRESHOLD_MULTIPLIER = 3.0` (terrainFilters.ts). -/
def HAMPEL_THRESHOLD_MULTIPLIER : ℚ := 3

/-- terrainFilters.ts `terrainRGBToHeight`:
`height = -10000 + ((r*256*256 + g*256 + b) * 0.1)` followed by
`Math.min(height, ABSOLUTE_MAX_HEIGHT)`. -/
def terrainRGBToHeight (r g b : ℕ) : ℚ :=
  let height : ℚ := -10000 + ((r * 256 * 256 + g * 256 + b) * (1/10))
  min height ABSOLUTE_MAX_HEIGHT

/-- The decode loop shared by all three filters: for `i < width*height`,
read bytes `data[4i], data[4i+1], data[4i+2]` and decode.  `data` is the
flat RGBA byte list of the `ImageData`. -/
def decodeHeights (data : List ℕ) (width height : ℕ) : List ℚ :=
  (List.range (width * height)).map fun i =>
    terrainRGBToHeight (data.getD (4 * i) 0) (data.getD (4 * i + 1) 0)
      (data.getD (4 * i + 2) 0)

/-- terrainFilters.ts `calculateMedian`: sort ascending, take the middle
element (odd length) or the mean of the two middle elements (even). -/
def calculateMedian (values : List ℚ) : ℚ :=
  let sorted := jsSortAsc values
  let mid := sorted.length / 2
  if sorted.length % 2 = 0 then (sorted.getD (mid - 1) 0 + sorted.getD mid 0) / 2
  else sorted.getD mid 0

/-- terrainFilters.ts `get5x5KernelHeights`: the in-bounds pixels of the
5×5 window centred at `(x, y)` (`dy` outer loop, `dx` inner loop). -/
def get5x5KernelHeights (heights : List ℚ) (width height : ℕ) (x y : ℕ) :
    List ℚ :=
  ((List.range 5).flatMap fun dy => (List.range 5).map fun dx =>
    (((x : ℤ) + ((dx : ℤ) - 2)), ((y : ℤ) + ((dy : ℤ) - 2)))).filterMap
    fun p =>
      if 0 ≤ p.1 ∧ p.1 < (width : ℤ) ∧ 0 ≤ p.2 ∧ p.2 < (height : ℤ) then
        some (heights.getD (p.2.toNat * width + p.1.toNat) 0)
      else none

/-- terrainFilters.ts `calculateMAD`: median of absolute deviations. -/
def calculateMAD (values : List ℚ) (median : ℚ) : ℚ :=
  calculateMedian (values.map fun v => |v - median|)

/-- One pixel of the Hampel pass: the value the filter writes at
`(x, y)` (reads come from the un-mutated `heights` array, writes go to
a copy, so per-pixel recomputation is exact). -/
def hampelPixel (heights : List ℚ) (width height : ℕ) (x y : ℕ) : ℚ :=
  let centerHeight := heights.getD (y * width + x) 0
  let kernelHeights := get5x5KernelHeights heights width height x y
  if 9 ≤ kernelHeights.length then
    let localMedian := calculateMedian kernelHeights
    let mad := calculateMAD kernelHeights localMedian
    let epsilon : ℚ := 1/100
    let threshold := HAMPEL_THRESHOLD_MULTIPLIER * (mad + epsilon)
    let deviation := |centerHeight - localMedian|
    if threshold < deviation then localMedian else centerHeight
  else centerHeight

/-- terrainFilters.ts `applyHampelFilter`: decode all pixels (capped),
then run the 5×5 Hampel pass row by row. -/
def applyHampelFilter (data : List ℕ) (width height : ℕ) : List ℚ :=
  let heights := decodeHeights data width height
  (List.range height).flatMap fun y => (List.range width).map fun x =>
    hampelPixel heights width height x y

/-- terrainFilters.ts `applyCappingFilter`: decode then clamp to
`MAX_SPIKE_HEIGHT`. -/
def applyCappingFilter (data : List ℕ) (width height : ℕ) : List ℚ :=
  (decodeHeights data width height).map fun elevation =>
    min elevation MAX_SPIKE_HEIGHT

/-- terrainFilters.ts `applyNoFilter`: raw decode (already capped). -/
def applyNoFilter (data : List ℕ) (width height : ℕ) : List ℚ :=
  decodeHeights data width height

/-- terrainFilters.ts `FilterMethod`. -/
inductive FilterMethod where
  | none
  | capping
  | median
deriving DecidableEq

/-- terrainFilters.ts `applyTerrainFilter`: dispatch on the method;
`'median'` maps to the Hampel filter for backward compatibility. -/
def applyTerrainFilter (data : List ℕ) (width height : ℕ)
    (filterMethod : FilterMethod) : List ℚ :=
  match filterMethod with
  | .capping => applyCappingFilter data width height
  | .median => applyHampelFilter data width height
  | .none => applyNoFilter data width height

end terrainFilters

/-! ## `src/lib/tileUtils.ts` — the uncapped decoder -/

namespace tileUtils

/-- tileUtils.ts `terrainRGBToHeight`:
`-10000 + ((r*256*256 + g*256 + b) * 0.1)` — no cap. -/
def terrainRGBToHeight (r g b : ℕ) : ℚ :=
  -10000 + ((r * 256 * 256 + g * 256 + b) * (1/10))

end tileUtils

/-! ## `src/lib/tileStitcher.ts` — exported heightmap decoder -/

namespace tileStitcher

/-- tileStitcher.ts `createHeightmapFromTerrainRGB`: for each pixel
`i < width*height` decode bytes `data[4i..4i+2]` with the *uncapped*
`tileUtils.terrainRGBToHeight`. -/
def createHeightmapFromTerrainRGB (data : List ℕ) (width height : ℕ) :
    List ℚ :=
  (List.range (width * height)).map fun i =>
    tileUtils.terrainRGBToHeight (data.getD (4 * i) 0)
      (data.getD (4 * i + 1) 0) (data.getD (4 * i + 2) 0)

end tileStitcher

/-! ## `src/components/MapCanvas.tsx` — heightfield sampler / mesh displacer

The displacement `useEffect` of `TerrainMesh`, as a pure function of the
filtered height field and the scale parameters. -/

namespace MapCanvas

/-- MapCanvas.tsx `sampleHeight` helper: clamp `⌊x⌋, ⌊y⌋` into the
raster and read `filteredHeights[py * terrainWidth + px]`. -/
def sampleHeight (filteredHeights : List ℚ) (terrainWidth terrainHeight : ℕ)
    (x y : ℚ) : ℚ :=
  let px : ℤ := max 0 (min ⌊x⌋ ((terrainWidth : ℤ) - 1))
  let py : ℤ := max 0 (min ⌊y⌋ ((terrainHeight : ℤ) - 1))
  filteredHeights.getD (py.toNat * terrainWidth + px.toNat) 0

/-- The bilinear sampling block of the displacement loop: UV
`(u, v) ∈ [0,1]²` to continuous raster coordinates
`(u*(W-1), v*(H-1))`, floor/`min`-clamped corner fetches, then
interpolation along x and then y.  This is `elevationMeters`, before
any scaling. -/
def bilinearSampleHeight (filteredHeights : List ℚ)
    (terrainWidth terrainHeight : ℕ) (u v : ℚ) : ℚ :=
  let terrainX := u * ((terrainWidth : ℚ) - 1)
  let terrainY := v * ((terrainHeight : ℚ) - 1)
  let x0 : ℤ := ⌊terrainX⌋
  let y0 : ℤ := ⌊terrainY⌋
  let x1 : ℤ := min (x0 + 1) ((terrainWidth : ℤ) - 1)
  let y1 : ℤ := min (y0 + 1) ((terrainHeight : ℤ) - 1)
  let fx : ℚ := terrainX - x0
  let fy : ℚ := terrainY - y0
  let h00 := sampleHeight filteredHeights terrainWidth terrainHeight x0 y0
  let h10 := sampleHeight filteredHeights terrainWidth terrainHeight x1 y0
  let h01 := sampleHeight filteredHeights terrainWidth terrainHeight x0 y1
  let h11 := sampleHeight filteredHeights terrainWidth terrainHeight x1 y1
  let h0 := h00 * (1 - fx) + h10 * fx
  let h1 := h01 * (1 - fx) + h11 * fx
  h0 * (1 - fy) + h1 * fy

/-- The `minElevation` scan.  The JS seeds the scan with `Infinity`; on
a non-empty field the result is the least element, which is what this
computes.  (On an empty field the JS value stays `Infinity`; the empty
case is never consumed and is mapped to `0` here.) -/
def minElevation : List ℚ → ℚ
  | [] => 0
  | h :: t => t.foldl min h

/-- The `maxElevation` scan (seeded with `-Infinity` in the JS). -/
def maxElevation : List ℚ → ℚ
  | [] => 0
  | h :: t => t.foldl max h

/-- The `baseScale` computation of the displacement effect.
Real-scale mode: `planeWidth / horizontalDistanceMeters` when the
distance is positive, fallback `0.1`.  Normalized mode:
`planeWidth * 0.25 / elevationRange` when the range is positive,
fallback `0.01`. -/
def baseScale (filteredHeights : List ℚ) (useRealScale : Bool)
    (planeWidth horizontalDistanceMeters : ℚ) : ℚ :=
  if useRealScale then
    if 0 < horizontalDistanceMeters then planeWidth / horizontalDistanceMeters
    else 1/10
  else
    let elevationRange := maxElevation filteredHeights - minElevation filteredHeights
    let targetElevationUnits := planeWidth * (1/4)
    if 0 < elevationRange then targetElevationUnits / elevationRange
    else 1/100

/-- The elevation offset written to a vertex whose UV coordinates are
`(u, v)`: bilinear sample, then either `elevationMeters * baseScale *
heightExaggeration` (real scale) or `(elevationMeters - minElevation) *
baseScale * heightExaggeration` (normalized). -/
def vertexElevation (filteredHeights : List ℚ)
    (terrainWidth terrainHeight : ℕ) (useRealScale : Bool)
    (heightExaggeration planeWidth horizontalDistanceMeters : ℚ)
    (u v : ℚ) : ℚ :=
  let elevationMeters :=
    bilinearSampleHeight filteredHeights terrainWidth terrainHeight u v
  let scale :=
    baseScale filteredHeights useRealScale planeWidth horizontalDistanceMeters
  if useRealScale then elevationMeters * scale * heightExaggeration
  else (elevationMeters - minElevation filteredHeights) * scale * heightExaggeration

end MapCanvas

/-! ## Tile geometry (`src/lib/tileUtils.ts` and `@mapbox/tilebelt`)

`tileUtils.ts` delegates lon/lat → tile-index conversion to the
external `@mapbox/tilebelt` package, whose code is not part of this
repository.  Following the spec those helpers are modelled from the
spec's description. -/

/-- A geographic bounding box (degrees, WGS84). -/
structure BoundingBox where
  minLon : ℝ
  minLat : ℝ
  maxLon : ℝ
  maxLat : ℝ

/-- An XYZ tile coordinate. -/
structure TileCoord where
  x : ℤ
  y : ℤ
  z : ℕ
deriving DecidableEq, Repr, Inhabited

namespace tilebelt

/-- Modelled from the spec: the horizontal part of
`tilebelt.pointToTile`'s "standard web-mercator tile index formula"
(spec §4.1), before taking the floor: `2^z * (lon/360 + 1/2)`. -/
noncomputable def mercX (lon : ℝ) (z : ℕ) : ℝ :=
  2 ^ z * (lon / 360 + 1/2)

/-- Modelled from the spec: the vertical (mercator) part of
`tilebelt.pointToTile`'s "standard web-mercator tile index formula"
(spec §4.1), before taking the floor:
`2^z * (1/2 - log((1+sin φ)/(1-sin φ)) / (4π))` with `φ = lat·π/180`. -/
noncomputable def mercY (lat : ℝ) (z : ℕ) : ℝ :=
  let s := Real.sin (lat * (Real.pi / 180))
  2 ^ z * (1/2 - 1/4 * Real.log ((1 + s) / (1 - s)) / Real.pi)

/-- Modelled from the spec: `tilebelt.pointToTile(lon, lat, z)` —
"standard web-mercator tile index formula; deterministic, pure"
(spec §4.1). -/
noncomputable def pointToTile (lon lat : ℝ) (z : ℕ) : ℤ × ℤ :=
  (⌊mercX lon z⌋, ⌊mercY lat z⌋)

/-- Modelled from the spec: western edge of tile column `x` at zoom
`z`, the inverse of `mercX` (spec §4.1 `tileToBoundingBox`). -/
noncomputable def tile2lon (x : ℤ) (z : ℕ) : ℝ :=
  (x : ℝ) / 2 ^ z * 360 - 180

/-- Modelled from the spec: northern edge of tile row `y` at zoom `z`,
the inverse of `mercY` (spec §4.1 `tileToBoundingBox`). -/
noncomputable def tile2lat (y : ℤ) (z : ℕ) : ℝ :=
  Real.arctan (Real.sinh (Real.pi * (1 - 2 * (y : ℝ) / 2 ^ z))) * (180 / Real.pi)

end tilebelt

namespace tileUtils

/-- tileUtils.ts `tileToBoundingBox` (delegating to the modelled
`tilebelt` inverse mapping): the geographic bounds of one tile. -/
noncomputable def tileToBoundingBox (tile : TileCoord) : BoundingBox where
  minLon := tilebelt.tile2lon tile.x tile.z
  minLat := tilebelt.tile2lat (tile.y + 1) tile.z
  maxLon := tilebelt.tile2lon (tile.x + 1) tile.z
  maxLat := tilebelt.tile2lat tile.y tile.z

/-- `tilesX * tilesY` of `calculateZoomLevel`'s loop body at zoom `z`:
`topLeft = pointToTile(minLon, maxLat, z)`,
`bottomRight = pointToTile(maxLon, minLat, z)`,
`(|Δx| + 1) * (|Δy| + 1)`. -/
noncomputable def totalTiles (bbox : BoundingBox) (z : ℕ) : ℤ :=
  let topLeft := tilebelt.pointToTile bbox.minLon bbox.maxLat z
  let bottomRight := tilebelt.pointToTile bbox.maxLon bbox.minLat z
  (|bottomRight.1 - topLeft.1| + 1) * (|bottomRight.2 - topLeft.2| + 1)

/-- One step of `calculateZoomLevel`'s scan over `z = 0..18`, carrying
`(zoom, broken)`: once `broken` the state is frozen (the JS `break`);
otherwise a `z` within budget records `zoom = z`, and the first `z`
over budget breaks. -/
def zstep (f : ℕ → ℤ) (maxTiles : ℤ) (st : ℤ × Bool) (z : ℕ) : ℤ × Bool :=
  if st.2 then st
  else if f z ≤ maxTiles then ((z : ℤ), false)
  else (st.1, true)

/-- tileUtils.ts `calculateZoomLevel`: starting from `zoom = 10`, scan
`z = 0..18`; while the tile budget holds record `zoom = z`, and stop at
the first `z` that exceeds it; finally clamp into `[8, 15]`.  The scan
with early exit is modelled by a fold carrying a `broken` flag. -/
noncomputable def calculateZoomLevel (bbox : BoundingBox) (maxTiles : ℤ) : ℤ :=
  let zoom := ((List.range 19).foldl (zstep (totalTiles bbox) maxTiles)
    ((10 : ℤ), false)).1
  max 8 (min zoom 15)

/-- The inclusive integer range `[a, b]`, the index list of a JS
`for (let i = a; i <= b; i++)` loop. -/
def intRange (a b : ℤ) : List ℤ :=
  (List.range (b + 1 - a).toNat).map fun (i : ℕ) => a + (i : ℤ)

/-- The `minX` of tileUtils.ts `getTilesForBoundingBox`. -/
noncomputable def tileMinX (bbox : BoundingBox) (zoom : ℕ) : ℤ :=
  min (tilebelt.pointToTile bbox.minLon bbox.maxLat zoom).1
    (tilebelt.pointToTile bbox.maxLon bbox.minLat zoom).1

/-- The `maxX` of tileUtils.ts `getTilesForBoundingBox`. -/
noncomputable def tileMaxX (bbox : BoundingBox) (zoom : ℕ) : ℤ :=
  max (tilebelt.pointToTile bbox.minLon bbox.maxLat zoom).1
    (tilebelt.pointToTile bbox.maxLon bbox.minLat zoom).1

/-- The `minY` of tileUtils.ts `getTilesForBoundingBox`. -/
noncomputable def tileMinY (bbox : BoundingBox) (zoom : ℕ) : ℤ :=
  min (tilebelt.pointToTile bbox.minLon bbox.maxLat zoom).2
    (tilebelt.pointToTile bbox.maxLon bbox.minLat zoom).2

/-- The `maxY` of tileUtils.ts `getTilesForBoundingBox`. -/
noncomputable def tileMaxY (bbox : BoundingBox) (zoom : ℕ) : ℤ :=
  max (tilebelt.pointToTile bbox.minLon bbox.maxLat zoom).2
    (tilebelt.pointToTile bbox.maxLon bbox.minLat zoom).2

/-- tileUtils.ts `getTilesForBoundingBox`: the covering tile rectangle,
enumerated by the nested loops `for x = minX..maxX { for y = minY..maxY
{ push {x, y, z: zoom} } }`. -/
noncomputable def getTilesForBoundingBox (bbox : BoundingBox) (zoom : ℕ) :
    List TileCoord :=
  (intRange (tileMinX bbox zoom) (tileMaxX bbox zoom)).flatMap fun x =>
    (intRange (tileMinY bbox zoom) (tileMaxY bbox zoom)).map fun y =>
      ⟨x, y, zoom⟩

end tileUtils

/-! ## `src/lib/tileStitcher.ts` — `stitchTiles` geometry

The pure part of `stitchTiles`: the empty-tile-list guard and the
composite / crop geometry.  Fetching and canvas drawing are I/O and are
outside the model. -/

namespace tileStitcher

/-- The composite and crop geometry computed by a successful
`stitchTiles` call. -/
structure StitchGeometry where
  minLon : ℝ
  maxLon : ℝ
  minLat : ℝ
  maxLat : ℝ
  xCoords : List ℤ
  yCoords : List ℤ
  canvasWidth : ℕ
  canvasHeight : ℕ
  startX : ℝ
  startY : ℝ
  cropWidth : ℝ
  cropHeight : ℝ
  croppedWidth : ℤ
  croppedHeight : ℤ

/-- `Math.min(...)` over a list (the JS spread call on a non-empty
list; the empty case, `Infinity`, is unreachable past the guard). -/
def listMinR : List ℝ → ℝ
  | [] => 0
  | h :: t => t.foldl min h

/-- `Math.max(...)` over a list. -/
def listMaxR : List ℝ → ℝ
  | [] => 0
  | h :: t => t.foldl max h

/-- tileStitcher.ts `stitchTiles`, pure geometry: throw
`'No tiles provided'` on an empty tile list, otherwise compute the
composite bounds (min/max over the per-tile bounding boxes), the sorted
distinct tile columns/rows, the composite canvas size (`512` px per
tile), and the crop rectangle for the requested bbox. -/
noncomputable def stitchTiles (tiles : List TileCoord) (bbox : BoundingBox) :
    Except String StitchGeometry :=
  if tiles.length = 0 then .error "No tiles provided"
  else
    let tileBboxes := tiles.map tileUtils.tileToBoundingBox
    let minLon := listMinR (tileBboxes.map (·.minLon))
    let maxLon := listMaxR (tileBboxes.map (·.maxLon))
    let minLat := listMinR (tileBboxes.map (·.minLat))
    let maxLat := listMaxR (tileBboxes.map (·.maxLat))
    let tileSize : ℕ := 512
    let xCoords := List.insertionSort (· ≤ ·) (tiles.map (·.x)).eraseDups
    let yCoords := List.insertionSort (· ≤ ·) (tiles.map (·.y)).eraseDups
    let canvasWidth := xCoords.length * tileSize
    let canvasHeight := yCoords.length * tileSize
    let lonRange := maxLon - minLon
    let latRange := maxLat - minLat
    let startX := ((bbox.minLon - minLon) / lonRange) * (canvasWidth : ℝ)
    let startY := ((maxLat - bbox.maxLat) / latRange) * (canvasHeight : ℝ)
    let cropWidth := ((bbox.maxLon - bbox.minLon) / lonRange) * (canvasWidth : ℝ)
    let cropHeight := ((bbox.maxLat - bbox.minLat) / latRange) * (canvasHeight : ℝ)
    .ok
      { minLon, maxLon, minLat, maxLat, xCoords, yCoords, canvasWidth,
        canvasHeight, startX, startY, cropWidth, cropHeight,
        croppedWidth := ⌈cropWidth⌉, croppedHeight := ⌈cropHeight⌉ }

end tileStitcher

/-! ## Concrete test inputs -/

/-- The RGBA raster of the spec's concrete Hampel case: a 5×5 field
whose pixels decode to `100.0` (`(1, 138, 136)`) except the centre
pixel (index 12), which decodes to `5000.0` (`(2, 73, 240)`). -/
def hampelSpikeImageData : List ℕ :=
  (List.range 25).flatMap fun i =>
    if i = 12 then [2, 73, 240, 255] else [1, 138, 136, 255]

/-! # Theorems -/

/-! ## C1 — the filter pipeline's decoder is `min(affine, 8000)` -/

/-- C1: for all byte triples, `terrainFilters.terrainRGBToHeight`
returns `min(-10000 + (r*65536 + g*256 + b)*0.1, 8000)`: a triple whose
affine value exceeds 8000 yields exactly 8000, and any value (including
negative, below-sea-level ones) not above 8000 passes through
unchanged — no lower floor. -/
theorem claim1_decoder_absolute_clamp (r g b : ℕ)
    (hr : r ≤ 255) (hg : g ≤ 255) (hb : b ≤ 255) :
    terrainFilters.terrainRGBToHeight r g b
      = min (-10000 + ((r : ℚ) * 65536 + (g : ℚ) * 256 + (b : ℚ)) * (1/10)) 8000
    ∧ (8000 < -10000 + ((r : ℚ) * 65536 + (g : ℚ) * 256 + (b : ℚ)) * (1/10) →
        terrainFilters.terrainRGBToHeight r g b = 8000)
    ∧ (-10000 + ((r : ℚ) * 65536 + (g : ℚ) * 256 + (b : ℚ)) * (1/10) ≤ 8000 →
        terrainFilters.terrainRGBToHeight r g b
          = -10000 + ((r : ℚ) * 65536 + (g : ℚ) * 256 + (b : ℚ)) * (1/10)) := by
  have hval : terrainFilters.terrainRGBToHeight r g b
      = min (-10000 + ((r : ℚ) * 65536 + (g : ℚ) * 256 + (b : ℚ)) * (1/10)) 8000 := by
    unfold terrainFilters.terrainRGBToHeight terrainFilters.ABSOLUTE_MAX_HEIGHT
    ring_nf
  refine ⟨hval, fun hgt => ?_, fun hle => ?_⟩
  · rw [hval, min_eq_right hgt.le]
  · rw [hval, min_eq_left hle]

/-- Witness for C1 at `(0, 0, 0)`: the decode is `-10000` (negative,
passed through by the one-sided clamp). -/
theorem claim1_decoder_absolute_clamp_witness :
    terrainFilters.terrainRGBToHeight 0 0 0
      = min (-10000 + ((0 : ℚ) * 65536 + (0 : ℚ) * 256 + (0 : ℚ)) * (1/10)) 8000
    ∧ (8000 < -10000 + ((0 : ℚ) * 65536 + (0 : ℚ) * 256 + (0 : ℚ)) * (1/10) →
        terrainFilters.terrainRGBToHeight 0 0 0 = 8000)
    ∧ (-10000 + ((0 : ℚ) * 65536 + (0 : ℚ) * 256 + (0 : ℚ)) * (1/10) ≤ 8000 →
        terrainFilters.terrainRGBToHeight 0 0 0
          = -10000 + ((0 : ℚ) * 65536 + (0 : ℚ) * 256 + (0 : ℚ)) * (1/10)) :=
  claim1_decoder_absolute_clamp 0 0 0 (by norm_num) (by norm_num) (by norm_num)

/-! ## C10 — the stitcher's exported heightmap decoder has no cap -/

/-- C10: `createHeightmapFromTerrainRGB` writes the raw affine decode
`-10000 + (R*65536 + G*256 + B)*0.1` for every pixel (via `tileUtils`'
uncapped `terrainRGBToHeight`), and on the all-`255` pixel its output
is `1 667 721.5 m`, above the 8000 m cap of the filter pipeline. -/
theorem claim10_stitcher_heightmap_uncapped :
    (∀ r g b : ℕ, tileUtils.terrainRGBToHeight r g b
        = -10000 + ((r : ℚ) * 65536 + (g : ℚ) * 256 + (b : ℚ)) * (1/10))
    ∧ (∀ (data : List ℕ) (w h i : ℕ), i < w * h →
        (tileStitcher.createHeightmapFromTerrainRGB data w h).getD i 0
          = -10000 + (((data.getD (4*i) 0 : ℕ) : ℚ) * 65536
              + ((data.getD (4*i+1) 0 : ℕ) : ℚ) * 256
              + ((data.getD (4*i+2) 0 : ℕ) : ℚ)) * (1/10))
    ∧ tileStitcher.createHeightmapFromTerrainRGB [255, 255, 255, 255] 1 1
        = [3335443/2]
    ∧ (8000 : ℚ) < 3335443/2 := by
  have hdef : ∀ r g b : ℕ, tileUtils.terrainRGBToHeight r g b
      = -10000 + ((r : ℚ) * 65536 + (g : ℚ) * 256 + (b : ℚ)) * (1/10) := by
    intro r g b
    unfold tileUtils.terrainRGBToHeight
    ring_nf
  refine ⟨hdef, fun data w h i hi => ?_, ?_, by norm_num⟩
  · have hlen : i < (tileStitcher.createHeightmapFromTerrainRGB data w h).length := by
      simpa [tileStitcher.createHeightmapFromTerrainRGB] using hi
    rw [List.getD_eq_getElem _ _ hlen]
    simp [tileStitcher.createHeightmapFromTerrainRGB, hdef]
  · have hr1 : List.range (1 * 1) = [0] := rfl
    rw [tileStitcher.createHeightmapFromTerrainRGB, hr1]
    simp only [List.map, List.getD]
    norm_num [tileUtils.terrainRGBToHeight]

/-- Witness for C10's per-pixel clause at the all-`255` single-pixel
raster. -/
theorem claim10_stitcher_heightmap_uncapped_witness :
    (tileStitcher.createHeightmapFromTerrainRGB [255, 255, 255, 255] 1 1).getD 0 0
      = -10000 + ((([255, 255, 255, 255].getD (4*0) 0 : ℕ) : ℚ) * 65536
          + (([255, 255, 255, 255].getD (4*0+1) 0 : ℕ) : ℚ) * 256
          + (([255, 255, 255, 255].getD (4*0+2) 0 : ℕ) : ℚ)) * (1/10) :=
  claim10_stitcher_heightmap_uncapped.2.1 [255, 255, 255, 255] 1 1 0 (by norm_num)

/-! ## C2 — Hampel spike correction, concrete 5×5 case -/

set_option maxRecDepth 400000 in
unseal Rat.add Rat.mul Rat.sub Rat.inv in
/-- C2: on the 5×5 field decoding to `100` everywhere except a `5000`
centre, the `'median'` method (the Hampel strategy) computes local
median `100`, MAD `0`, threshold `3*(0+0.01) = 0.03`, deviation
`4900 > 0.03`, replaces the centre with `100`, and leaves every
non-spike pixel at `100`. -/
theorem claim2_hampel_spike_correction :
    terrainFilters.decodeHeights hampelSpikeImageData 5 5
      = (List.range 25).map (fun i => if i = 12 then (5000 : ℚ) else 100)
    ∧ terrainFilters.calculateMedian
        (terrainFilters.get5x5KernelHeights
          (terrainFilters.decodeHeights hampelSpikeImageData 5 5) 5 5 2 2) = 100
    ∧ terrainFilters.calculateMAD
        (terrainFilters.get5x5KernelHeights
          (terrainFilters.decodeHeights hampelSpikeImageData 5 5) 5 5 2 2) 100 = 0
    ∧ terrainFilters.HAMPEL_THRESHOLD_MULTIPLIER * (0 + 1/100) = 3/100
    ∧ |(5000 : ℚ) - 100| = 4900
    ∧ (3/100 : ℚ) < 4900
    ∧ terrainFilters.applyTerrainFilter hampelSpikeImageData 5 5 .median
        = List.replicate 25 100 := by
  decide

/-! ## C4 — normalized scale mode, concrete 2×2 case -/

set_option maxRecDepth 40000 in
unseal Rat.add Rat.mul Rat.sub Rat.inv in
/-- C4: for the height field `[0, 0, 0, 1000]` (metres) on a 2×2
raster with `useRealScale = false`, `heightExaggeration = 1` and
`planeWidth = 10`, the displacer's `baseScale` is
`10*0.25/1000 = 0.0025 = 1/400`, and the elevation offset of the
vertex sampling `(u, v) = (1, 1)` (the maximum-height sample) is
`(1000 - 0) * 0.0025 * 1 = 2.5` scene units. -/
theorem claim4_normalized_scale_concrete :
    MapCanvas.baseScale [0, 0, 0, 1000] false 10 0 = 1/400
    ∧ (1/400 : ℚ) = 10 * (1/4) / 1000
    ∧ MapCanvas.bilinearSampleHeight [0, 0, 0, 1000] 2 2 1 1 = 1000
    ∧ MapCanvas.vertexElevation [0, 0, 0, 1000] 2 2 false 1 10 0 1 1 = 5/2 := by
  decide

/-! ## C8 — empty tile list is a fatal stitch error -/

/-- C8: `stitchTiles` on an empty tile list fails with the
`'No tiles provided'` error before any other work, and on any
non-empty tile list that error branch is not taken (the geometry is
produced). -/
theorem claim8_stitch_empty_tiles_fatal :
    (∀ bbox : BoundingBox,
      tileStitcher.stitchTiles [] bbox = .error "No tiles provided")
    ∧ ∀ (tiles : List TileCoord) (bbox : BoundingBox), tiles ≠ [] →
        ∃ g, tileStitcher.stitchTiles tiles bbox = .ok g := by
  constructor
  · intro bbox
    simp [tileStitcher.stitchTiles]
  · intro tiles bbox hne
    rw [tileStitcher.stitchTiles, if_neg (by simpa using hne)]
    exact ⟨_, rfl⟩

/-- Witness for C8's non-empty clause at a single tile. -/
theorem claim8_stitch_empty_tiles_fatal_witness :
    ∃ g, tileStitcher.stitchTiles [⟨0, 0, 0⟩] ⟨0, 0, 1, 1⟩ = .ok g :=
  claim8_stitch_empty_tiles_fatal.2 [⟨0, 0, 0⟩] ⟨0, 0, 1, 1⟩ (by simp)

/-! ## C7 — bilinear sampler is exact at the raster corners -/

/-- C7: for every height field of width `W ≥ 1` and height `H ≥ 1`,
the displacer's bilinear sampler at `(u, v) = (0, 0)` returns exactly
`heightField[0]`, and at `(u, v) = (1, 1)` exactly the last element
`heightField[(H-1)*W + (W-1)]`, before any scaling. -/
theorem claim7_bilinear_corner_exact (heights : List ℚ) (W H : ℕ)
    (hW : 1 ≤ W) (hH : 1 ≤ H) (hlen : heights.length = W * H) :
    MapCanvas.bilinearSampleHeight heights W H 0 0 = heights.getD 0 0
    ∧ MapCanvas.bilinearSampleHeight heights W H 1 1
        = heights.getD ((H - 1) * W + (W - 1)) 0 := by
  have hWZ : (0:ℤ) ≤ (W:ℤ) - 1 := by omega
  have hHZ : (0:ℤ) ≤ (H:ℤ) - 1 := by omega
  constructor
  · simp only [MapCanvas.bilinearSampleHeight, MapCanvas.sampleHeight, zero_mul,
      Int.floor_zero, Int.cast_zero, sub_zero, zero_add]
    ring_nf
    simp
  · have hfW : ⌊(1:ℚ) * ((W:ℚ) - 1)⌋ = (W:ℤ) - 1 := by
      rw [one_mul, show ((W:ℚ) - 1) = (((W:ℤ) - 1 : ℤ) : ℚ) by push_cast; ring,
        Int.floor_intCast]
    have hfH : ⌊(1:ℚ) * ((H:ℚ) - 1)⌋ = (H:ℤ) - 1 := by
      rw [one_mul, show ((H:ℚ) - 1) = (((H:ℤ) - 1 : ℤ) : ℚ) by push_cast; ring,
        Int.floor_intCast]
    have hfW2 : ⌊(((W:ℤ) - 1 : ℤ) : ℚ)⌋ = (W:ℤ) - 1 := Int.floor_intCast _
    have hfH2 : ⌊(((H:ℤ) - 1 : ℤ) : ℚ)⌋ = (H:ℤ) - 1 := Int.floor_intCast _
    have hfx : (1:ℚ) * ((W:ℚ) - 1) - (((W:ℤ) - 1 : ℤ) : ℚ) = 0 := by push_cast; ring
    have hfy : (1:ℚ) * ((H:ℚ) - 1) - (((H:ℤ) - 1 : ℤ) : ℚ) = 0 := by push_cast; ring
    have hminW : min ((W:ℤ) - 1 + 1) ((W:ℤ) - 1) = (W:ℤ) - 1 := by omega
    have hminH : min ((H:ℤ) - 1 + 1) ((H:ℤ) - 1) = (H:ℤ) - 1 := by omega
    simp only [MapCanvas.bilinearSampleHeight, MapCanvas.sampleHeight, hfW, hfH,
      hfW2, hfH2, hfx, hfy, hminW, hminH, min_self, max_eq_right hWZ,
      max_eq_right hHZ]
    ring_nf
    have h1 : ((-1 : ℤ) + (W:ℤ)).toNat = W - 1 := by omega
    have h2 : ((-1 : ℤ) + (H:ℤ)).toNat = H - 1 := by omega
    rw [h1, h2, Nat.mul_comm (H - 1) W]

/-- Witness for C7 on a 3×2 field. -/
theorem claim7_bilinear_corner_exact_witness :
    MapCanvas.bilinearSampleHeight [10, 20, 30, 40, 50, 60] 3 2 0 0 = 10
    ∧ MapCanvas.bilinearSampleHeight [10, 20, 30, 40, 50, 60] 3 2 1 1 = 60 := by
  have h := claim7_bilinear_corner_exact [10, 20, 30, 40, 50, 60] 3 2
    (by norm_num) (by norm_num) (by rfl)
  exact ⟨h.1.trans (by rfl), h.2.trans (by rfl)⟩

/-! ## Tile-rectangle enumeration structure (for C5 and C6) -/

/-- Enumerating the integer rectangle `[a, a+n-1] × [c, c+H-1]` with the
nested loops of `getTilesForBoundingBox` equals a single
`k ↦ (a + k / H, c + k % H)` enumeration: the `y` index varies
fastest. -/
theorem intRect_enum (a c : ℤ) (zoom : ℕ) (n H : ℕ) :
    ((List.range n).map fun (i : ℕ) => a + (i : ℤ)).flatMap
        (fun x => ((List.range H).map fun (j : ℕ) => c + (j : ℤ)).map
          fun y => (⟨x, y, zoom⟩ : TileCoord))
      = (List.range (n * H)).map
          fun (k : ℕ) => ⟨a + ((k / H : ℕ) : ℤ), c + ((k % H : ℕ) : ℤ), zoom⟩ := by
  rcases Nat.eq_zero_or_pos H with hH | hH
  · subst hH
    simp
  · induction n with
    | zero => simp
    | succ n ih =>
      rw [List.range_succ, List.map_append, List.flatMap_append, ih, Nat.succ_mul,
        List.range_add, List.map_append, List.map_map]
      congr 1
      simp only [List.map_cons, List.map_nil, List.flatMap_cons, List.flatMap_nil,
        List.append_nil, List.map_map]
      refine List.map_congr_left fun j hj => ?_
      have hjH : j < H := List.mem_range.mp hj
      have hdiv : (n * H + j) / H = n := by
        rw [Nat.mul_comm n H, Nat.mul_add_div hH, Nat.div_eq_of_lt hjH,
          Nat.add_zero]
      have hmod : (n * H + j) % H = j := by
        rw [Nat.mul_comm n H, Nat.mul_add_mod, Nat.mod_eq_of_lt hjH]
      simp [Function.comp, hdiv, hmod]

/-- `getTilesForBoundingBox` as a single indexed enumeration. -/
theorem getTilesForBoundingBox_eq_map (bbox : BoundingBox) (zoom : ℕ) :
    tileUtils.getTilesForBoundingBox bbox zoom
      = (List.range ((tileUtils.tileMaxX bbox zoom - tileUtils.tileMinX bbox zoom
            + 1).toNat
          * (tileUtils.tileMaxY bbox zoom - tileUtils.tileMinY bbox zoom
            + 1).toNat)).map
          fun (k : ℕ) =>
            ⟨tileUtils.tileMinX bbox zoom
                + ((k / (tileUtils.tileMaxY bbox zoom
                    - tileUtils.tileMinY bbox zoom + 1).toNat : ℕ) : ℤ),
              tileUtils.tileMinY bbox zoom
                + ((k % (tileUtils.tileMaxY bbox zoom
                    - tileUtils.tileMinY bbox zoom + 1).toNat : ℕ) : ℤ),
              zoom⟩ := by
  have hx : tileUtils.tileMaxX bbox zoom + 1 - tileUtils.tileMinX bbox zoom
      = tileUtils.tileMaxX bbox zoom - tileUtils.tileMinX bbox zoom + 1 := by ring
  have hy : tileUtils.tileMaxY bbox zoom + 1 - tileUtils.tileMinY bbox zoom
      = tileUtils.tileMaxY bbox zoom - tileUtils.tileMinY bbox zoom + 1 := by ring
  unfold tileUtils.getTilesForBoundingBox tileUtils.intRange
  rw [hx, hy]
  exact intRect_enum _ _ _ _ _

/-! ## C5 — tile enumeration: count, uniqueness, shared zoom -/

/-- C5: for every bounding box and zoom, `getTilesForBoundingBox`
returns exactly `(maxX-minX+1)*(maxY-minY+1)` tiles, all `(x, y)`
pairs distinct, all carrying the requested zoom; a bbox degenerate to
a single tile yields exactly one `TileCoord`. -/
theorem claim5_tile_enumeration (bbox : BoundingBox) (zoom : ℕ) :
    ((tileUtils.getTilesForBoundingBox bbox zoom).length : ℤ)
        = (tileUtils.tileMaxX bbox zoom - tileUtils.tileMinX bbox zoom + 1)
          * (tileUtils.tileMaxY bbox zoom - tileUtils.tileMinY bbox zoom + 1)
    ∧ ((tileUtils.getTilesForBoundingBox bbox zoom).map
        fun t => (t.x, t.y)).Nodup
    ∧ (∀ t ∈ tileUtils.getTilesForBoundingBox bbox zoom, t.z = zoom)
    ∧ (tileUtils.tileMinX bbox zoom = tileUtils.tileMaxX bbox zoom →
        tileUtils.tileMinY bbox zoom = tileUtils.tileMaxY bbox zoom →
        (tileUtils.getTilesForBoundingBox bbox zoom).length = 1) := by
  have heq := getTilesForBoundingBox_eq_map bbox zoom
  have hA : 0 ≤ tileUtils.tileMaxX bbox zoom - tileUtils.tileMinX bbox zoom := by
    have := min_le_max (a := (tilebelt.pointToTile bbox.minLon bbox.maxLat zoom).1)
      (b := (tilebelt.pointToTile bbox.maxLon bbox.minLat zoom).1)
    unfold tileUtils.tileMaxX tileUtils.tileMinX
    omega
  have hB : 0 ≤ tileUtils.tileMaxY bbox zoom - tileUtils.tileMinY bbox zoom := by
    have := min_le_max (a := (tilebelt.pointToTile bbox.minLon bbox.maxLat zoom).2)
      (b := (tilebelt.pointToTile bbox.maxLon bbox.minLat zoom).2)
    unfold tileUtils.tileMaxY tileUtils.tileMinY
    omega
  set A := tileUtils.tileMaxX bbox zoom - tileUtils.tileMinX bbox zoom + 1 with hAdef
  set B := tileUtils.tileMaxY bbox zoom - tileUtils.tileMinY bbox zoom + 1 with hBdef
  have hBpos : 0 < B.toNat := by omega
  refine ⟨?_, ?_, ?_, ?_⟩
  · rw [heq]
    rw [List.length_map, List.length_range]
    push_cast [Int.toNat_of_nonneg (by omega : (0:ℤ) ≤ A),
      Int.toNat_of_nonneg (by omega : (0:ℤ) ≤ B)]
    ring
  · rw [heq, List.map_map]
    refine List.Nodup.map_on ?_ (List.nodup_range _)
    intro k hk j hj hkj
    simp only [Function.comp, Prod.mk.injEq, add_right_inj, Nat.cast_inj] at hkj
    obtain ⟨hdiv, hmod⟩ := hkj
    have h1 := Nat.div_add_mod k B.toNat
    have h2 := Nat.div_add_mod j B.toNat
    rw [← h1, ← h2, hdiv, hmod]
  · rw [heq]
    intro t ht
    obtain ⟨k, hk, rfl⟩ := List.mem_map.mp ht
    rfl
  · intro h1 h2
    have hA1 : A = 1 := by omega
    have hB1 : B = 1 := by omega
    rw [heq, List.length_map, List.length_range, hA1, hB1]
    rfl

/-! ## Mercator floor evaluations (shared by the C5 witness and C6) -/

/-- For latitudes in `[-1/1000, 0)` the zoom-10 mercator row is 512
(the first row south of the equator). -/
theorem mercY_floor_tiny_neg {lat : ℝ} (h0 : -(1/1000) ≤ lat) (h1 : lat < 0) :
    ⌊tilebelt.mercY lat 10⌋ = 512 := by
  have hπl : (3.141592 : ℝ) < Real.pi := Real.pi_gt_d6
  have hπu : Real.pi < 3.15 := Real.pi_lt_d2
  have hπ0 : (0:ℝ) < Real.pi := by linarith
  set x := lat * (Real.pi / 180) with hxdef
  have hx0 : x < 0 := mul_neg_of_neg_of_pos h1 (by positivity)
  have hxlo : -(1/10000) ≤ x := by
    have : lat * (Real.pi / 180) ≥ (-(1/1000)) * (Real.pi / 180) := by
      apply mul_le_mul_of_nonneg_right h0 (by positivity)
    nlinarith
  have hslt : x < Real.sin x := by
    have := Real.sin_lt (x := -x) (by linarith)
    have hsneg : Real.sin (-x) = -Real.sin x := Real.sin_neg x
    linarith [this, hsneg.le, hsneg.ge]
  have hs0 : Real.sin x < 0 := Real.sin_neg_of_neg_of_neg_pi_lt hx0 (by linarith)
  set s := Real.sin x with hsdef
  have hs_lo : -(1/10000) ≤ s := by linarith
  have hden : (0:ℝ) < 1 - s := by linarith
  have hnum : (0:ℝ) < 1 + s := by linarith
  have hRpos : (0:ℝ) < (1 + s) / (1 - s) := div_pos hnum hden
  have hR1 : (1 + s) / (1 - s) < 1 := by
    rw [div_lt_one hden]
    linarith
  have hlogneg : Real.log ((1 + s) / (1 - s)) < 0 := Real.log_neg hRpos hR1
  have hexp : Real.exp (-(Real.pi/512)) ≤ (1 + s) / (1 - s) := by
    have h1e : Real.exp (-(Real.pi/512)) ≤ 1/(1 + Real.pi/512) := by
      rw [Real.exp_neg]
      have hp : (0:ℝ) < 1 + Real.pi/512 := by positivity
      have hee : 1 + Real.pi/512 ≤ Real.exp (Real.pi/512) := by
        have := Real.add_one_le_exp (Real.pi/512)
        linarith
      rw [inv_eq_one_div]
      apply one_div_le_one_div_of_le hp hee
    have h2e : 1/(1 + Real.pi/512) ≤ (1 + s) / (1 - s) := by
      rw [div_le_div_iff (by positivity) hden]
      nlinarith
    linarith
  have hlogge : -(Real.pi/512) ≤ Real.log ((1 + s) / (1 - s)) :=
    (Real.le_log_iff_exp_le hRpos).mpr hexp
  have hval : tilebelt.mercY lat 10
      = 512 - 256 * (Real.log ((1 + s) / (1 - s)) / Real.pi) := by
    simp only [tilebelt.mercY, ← hxdef, ← hsdef]
    ring
  have hq : -(1/512 : ℝ) ≤ Real.log ((1 + s) / (1 - s)) / Real.pi := by
    have hd : (-(Real.pi/512))/Real.pi ≤ Real.log ((1 + s) / (1 - s)) / Real.pi :=
      (div_le_div_right hπ0).mpr hlogge
    have he : (-(Real.pi/512))/Real.pi = -(1/512 : ℝ) := by
      field_simp
      ring
    linarith
  have hqneg : Real.log ((1 + s) / (1 - s)) / Real.pi < 0 :=
    div_neg_of_neg_of_pos hlogneg hπ0
  rw [hval, Int.floor_eq_iff]
  constructor
  · push_cast
    nlinarith
  · push_cast
    nlinarith

/-- For latitudes in `(0, 1/1000]` the zoom-10 mercator row is 511
(the first row north of the equator). -/
theorem mercY_floor_tiny_pos {lat : ℝ} (h0 : 0 < lat) (h1 : lat ≤ 1/1000) :
    ⌊tilebelt.mercY lat 10⌋ = 511 := by
  have hπl : (3.141592 : ℝ) < Real.pi := Real.pi_gt_d6
  have hπu : Real.pi < 3.15 := Real.pi_lt_d2
  have hπ0 : (0:ℝ) < Real.pi := by linarith
  set x := lat * (Real.pi / 180) with hxdef
  have hx0 : 0 < x := mul_pos h0 (by positivity)
  have hxhi : x ≤ 1/10000 := by
    have : lat * (Real.pi / 180) ≤ (1/1000) * (Real.pi / 180) := by
      apply mul_le_mul_of_nonneg_right h1 (by positivity)
    nlinarith
  have hslt : Real.sin x < x := Real.sin_lt hx0
  have hs0 : 0 < Real.sin x := Real.sin_pos_of_pos_of_lt_pi hx0 (by linarith)
  set s := Real.sin x with hsdef
  have hs_hi : s ≤ 1/10000 := by linarith
  have hden : (0:ℝ) < 1 - s := by linarith
  have hnum : (0:ℝ) < 1 + s := by linarith
  have hRpos : (0:ℝ) < (1 + s) / (1 - s) := div_pos hnum hden
  have hR1 : 1 < (1 + s) / (1 - s) := by
    rw [lt_div_iff hden]
    linarith
  have hlogpos : 0 < Real.log ((1 + s) / (1 - s)) := Real.log_pos hR1
  have hexp : (1 + s) / (1 - s) ≤ Real.exp (Real.pi/512) := by
    have h2e : (1 + s) / (1 - s) ≤ 1 + Real.pi/512 := by
      rw [div_le_iff hden]
      nlinarith
    have hee : 1 + Real.pi/512 ≤ Real.exp (Real.pi/512) := by
      have := Real.add_one_le_exp (Real.pi/512)
      linarith
    linarith
  have hlogle : Real.log ((1 + s) / (1 - s)) ≤ Real.pi/512 :=
    (Real.log_le_iff_le_exp hRpos).mpr hexp
  have hq : Real.log ((1 + s) / (1 - s)) / Real.pi ≤ 1/512 := by
    have hd : Real.log ((1 + s) / (1 - s)) / Real.pi ≤ (Real.pi/512) / Real.pi :=
      (div_le_div_right hπ0).mpr hlogle
    have he : (Real.pi/512)/Real.pi = (1/512 : ℝ) := by
      field_simp
      ring
    linarith
  have hqpos : 0 < Real.log ((1 + s) / (1 - s)) / Real.pi := div_pos hlogpos hπ0
  have hval : tilebelt.mercY lat 10
      = 512 - 256 * (Real.log ((1 + s) / (1 - s)) / Real.pi) := by
    simp only [tilebelt.mercY, ← hxdef, ← hsdef]
    ring
  rw [hval, Int.floor_eq_iff]
  constructor
  · push_cast
    nlinarith
  · push_cast
    nlinarith

/-- Zoom-10 mercator column of longitude `0`. -/
theorem mercX_floor_lon_zero : ⌊tilebelt.mercX 0 10⌋ = 512 := by
  have : tilebelt.mercX 0 10 = 512 := by
    simp only [tilebelt.mercX]
    norm_num
  rw [this]
  norm_num

/-- Zoom-10 mercator column of longitude `1/4096` (still column 512). -/
theorem mercX_floor_lon_small : ⌊tilebelt.mercX (1/4096) 10⌋ = 512 := by
  have : tilebelt.mercX (1/4096) 10 = 512 + 1/1440 := by
    simp only [tilebelt.mercX]
    norm_num
  rw [this, Int.floor_eq_iff]
  constructor <;> push_cast <;> norm_num

/-- Zoom-10 mercator column of longitude `360/1024` (one tile east). -/
theorem mercX_floor_lon_tile : ⌊tilebelt.mercX (360/1024) 10⌋ = 513 := by
  have : tilebelt.mercX (360/1024) 10 = 513 := by
    simp only [tilebelt.mercX]
    norm_num
  rw [this]
  norm_num

/-- The box `[0, 1/4096] × [-1/2000, -1/4000]` is degenerate to the
single zoom-10 tile `(512, 512)`. -/
theorem singleBox_range :
    tileUtils.tileMinX ⟨0, -(1/2000), 1/4096, -(1/4000)⟩ 10 = 512
    ∧ tileUtils.tileMaxX ⟨0, -(1/2000), 1/4096, -(1/4000)⟩ 10 = 512
    ∧ tileUtils.tileMinY ⟨0, -(1/2000), 1/4096, -(1/4000)⟩ 10 = 512
    ∧ tileUtils.tileMaxY ⟨0, -(1/2000), 1/4096, -(1/4000)⟩ 10 = 512 := by
  have hx1 : ⌊tilebelt.mercX 0 10⌋ = 512 := mercX_floor_lon_zero
  have hx2 : ⌊tilebelt.mercX (1/4096) 10⌋ = 512 := mercX_floor_lon_small
  have hy1 : ⌊tilebelt.mercY (-(1/4000) : ℝ) 10⌋ = 512 :=
    mercY_floor_tiny_neg (by norm_num) (by norm_num)
  have hy2 : ⌊tilebelt.mercY (-(1/2000) : ℝ) 10⌋ = 512 :=
    mercY_floor_tiny_neg (by norm_num) (by norm_num)
  refine ⟨?_, ?_, ?_, ?_⟩ <;>
    simp only [tileUtils.tileMinX, tileUtils.tileMaxX, tileUtils.tileMinY,
      tileUtils.tileMaxY, tilebelt.pointToTile, hx1, hx2, hy1, hy2, min_self,
      max_self]

/-- Witness for C5: the degenerate box yields exactly one tile. -/
theorem claim5_tile_enumeration_witness :
    (tileUtils.getTilesForBoundingBox ⟨0, -(1/2000), 1/4096, -(1/4000)⟩ 10).length
      = 1 := by
  obtain ⟨h1, h2, h3, h4⟩ := singleBox_range
  exact (claim5_tile_enumeration ⟨0, -(1/2000), 1/4096, -(1/4000)⟩ 10).2.2.2
    (h1.trans h2.symm) (h3.trans h4.symm)

/-! ## C6 — enumeration order: the code is column-major, not row-major -/

/-- The box `[0, 360/1024] × [-1/2000, 1/2000]` spans the 2×2 zoom-10
tile rectangle `[512, 513] × [511, 512]`. -/
theorem rowBox_range :
    tileUtils.tileMinX ⟨0, -(1/2000), 360/1024, 1/2000⟩ 10 = 512
    ∧ tileUtils.tileMaxX ⟨0, -(1/2000), 360/1024, 1/2000⟩ 10 = 513
    ∧ tileUtils.tileMinY ⟨0, -(1/2000), 360/1024, 1/2000⟩ 10 = 511
    ∧ tileUtils.tileMaxY ⟨0, -(1/2000), 360/1024, 1/2000⟩ 10 = 512 := by
  have hx1 : ⌊tilebelt.mercX 0 10⌋ = 512 := mercX_floor_lon_zero
  have hx2 : ⌊tilebelt.mercX (360/1024) 10⌋ = 513 := mercX_floor_lon_tile
  have hy1 : ⌊tilebelt.mercY ((1/2000) : ℝ) 10⌋ = 511 :=
    mercY_floor_tiny_pos (by norm_num) (by norm_num)
  have hy2 : ⌊tilebelt.mercY (-(1/2000) : ℝ) 10⌋ = 512 :=
    mercY_floor_tiny_neg (by norm_num) (by norm_num)
  refine ⟨?_, ?_, ?_, ?_⟩ <;>
    simp only [tileUtils.tileMinX, tileUtils.tileMaxX, tileUtils.tileMinY,
      tileUtils.tileMaxY, tilebelt.pointToTile, hx1, hx2, hy1, hy2] <;>
    norm_num

/-- Counterexample to C6: on the 2×2 tile rectangle above, element
`k = 1` of the enumeration is `(512, 512)` — the next `y` within the
same `x` column — not the `(minX + k mod W, minY + k div W)`
\(= (513, 511)\) demanded by row-major order. -/
theorem claim6_row_major_counterexample :
    (tileUtils.getTilesForBoundingBox ⟨0, -(1/2000), 360/1024, 1/2000⟩ 10).length = 4
    ∧ (tileUtils.getTilesForBoundingBox ⟨0, -(1/2000), 360/1024, 1/2000⟩ 10).getD 1
        default = ⟨512, 512, 10⟩
    ∧ ((tileUtils.getTilesForBoundingBox ⟨0, -(1/2000), 360/1024, 1/2000⟩ 10).getD 1
        default).x
      ≠ tileUtils.tileMinX ⟨0, -(1/2000), 360/1024, 1/2000⟩ 10
        + ((1 % (tileUtils.tileMaxX ⟨0, -(1/2000), 360/1024, 1/2000⟩ 10
            - tileUtils.tileMinX ⟨0, -(1/2000), 360/1024, 1/2000⟩ 10 + 1).toNat : ℕ)
          : ℤ) := by
  obtain ⟨h1, h2, h3, h4⟩ := rowBox_range
  have heq := getTilesForBoundingBox_eq_map ⟨0, -(1/2000), 360/1024, 1/2000⟩ 10
  rw [h1, h2, h3, h4] at heq
  have e1 : ((513:ℤ) - 512 + 1).toNat = 2 := rfl
  have e2 : ((512:ℤ) - 511 + 1).toNat = 2 := rfl
  rw [e1, e2] at heq
  refine ⟨?_, ?_, ?_⟩
  · rw [heq]
    rfl
  · rw [heq]
    rfl
  · rw [heq, h1, h2, e1]
    decide

/-- C6 amended: the enumeration is column-major (`x` outer, `y`
inner): the `k`-th element is
`(minX + k div H, minY + k mod H)` with `H = maxY - minY + 1`. -/
theorem claim6_column_major (bbox : BoundingBox) (zoom : ℕ) (k : ℕ)
    (hk : k < (tileUtils.getTilesForBoundingBox bbox zoom).length) :
    (tileUtils.getTilesForBoundingBox bbox zoom).getD k default
      = ⟨tileUtils.tileMinX bbox zoom
          + ((k / (tileUtils.tileMaxY bbox zoom - tileUtils.tileMinY bbox zoom
              + 1).toNat : ℕ) : ℤ),
        tileUtils.tileMinY bbox zoom
          + ((k % (tileUtils.tileMaxY bbox zoom - tileUtils.tileMinY bbox zoom
              + 1).toNat : ℕ) : ℤ),
        zoom⟩ := by
  rw [getTilesForBoundingBox_eq_map] at hk ⊢
  rw [List.length_map, List.length_range] at hk
  rw [List.getD_eq_getElem _ _ (by simpa using hk)]
  simp

/-- Witness for the amended C6 at `k = 1` on the 2×2 rectangle. -/
theorem claim6_column_major_witness :
    (tileUtils.getTilesForBoundingBox ⟨0, -(1/2000), 360/1024, 1/2000⟩ 10).getD 1
      default
      = ⟨tileUtils.tileMinX ⟨0, -(1/2000), 360/1024, 1/2000⟩ 10
          + ((1 / (tileUtils.tileMaxY ⟨0, -(1/2000), 360/1024, 1/2000⟩ 10
              - tileUtils.tileMinY ⟨0, -(1/2000), 360/1024, 1/2000⟩ 10
              + 1).toNat : ℕ) : ℤ),
        tileUtils.tileMinY ⟨0, -(1/2000), 360/1024, 1/2000⟩ 10
          + ((1 % (tileUtils.tileMaxY ⟨0, -(1/2000), 360/1024, 1/2000⟩ 10
              - tileUtils.tileMinY ⟨0, -(1/2000), 360/1024, 1/2000⟩ 10
              + 1).toNat : ℕ) : ℤ),
        10⟩ := by
  apply claim6_column_major
  obtain ⟨h1, h2, h3, h4⟩ := rowBox_range
  have heq := getTilesForBoundingBox_eq_map ⟨0, -(1/2000), 360/1024, 1/2000⟩ 10
  rw [h1, h2, h3, h4] at heq
  have e1 : ((513:ℤ) - 512 + 1).toNat = 2 := rfl
  have e2 : ((512:ℤ) - 511 + 1).toNat = 2 := rfl
  rw [e1, e2] at heq
  rw [heq]
  norm_num

/-! ## C9 — the Hampel filter never leaves the field's range -/

/-- `calculateMedian` of a non-empty list lies between two of the
list's elements: the middle element(s) of the sorted permutation. -/
theorem calculateMedian_bounds (l : List ℚ) (hne : l ≠ []) :
    (∃ a ∈ l, a ≤ terrainFilters.calculateMedian l)
    ∧ ∃ b ∈ l, terrainFilters.calculateMedian l ≤ b := by
  have hperm : List.Perm (jsSortAsc l) l := List.perm_insertionSort _ _
  have hsort : List.Sorted (· ≤ ·) (jsSortAsc l) := List.sorted_insertionSort _ _
  have hlen : (jsSortAsc l).length = l.length := hperm.length_eq
  have hpos : 0 < (jsSortAsc l).length := by
    rw [hlen]
    exact List.length_pos.mpr hne
  unfold terrainFilters.calculateMedian
  set s := jsSortAsc l with hs
  set m := s.length / 2 with hm
  have hmlt : m < s.length := Nat.div_lt_self hpos one_lt_two
  by_cases hpar : s.length % 2 = 0
  · have hm1 : 1 ≤ m := by omega
    have hm1lt : m - 1 < s.length := by omega
    have hma : s.getD (m - 1) 0 = s.get ⟨m - 1, hm1lt⟩ := by
      rw [List.getD_eq_getElem _ _ hm1lt]
      rfl
    have hmb : s.getD m 0 = s.get ⟨m, hmlt⟩ := by
      rw [List.getD_eq_getElem _ _ hmlt]
      rfl
    have hab : s.get ⟨m - 1, hm1lt⟩ ≤ s.get ⟨m, hmlt⟩ := by
      apply hsort.rel_get_of_lt
      simp only [Fin.mk_lt_mk]
      omega
    rw [if_pos hpar, hma, hmb]
    constructor
    · exact ⟨s.get ⟨m - 1, hm1lt⟩, hperm.mem_iff.mp (s.get_mem _ _), by linarith⟩
    · exact ⟨s.get ⟨m, hmlt⟩, hperm.mem_iff.mp (s.get_mem _ _), by linarith⟩
  · have hmb : s.getD m 0 = s.get ⟨m, hmlt⟩ := by
      rw [List.getD_eq_getElem _ _ hmlt]
      rfl
    rw [if_neg hpar, hmb]
    exact ⟨⟨s.get ⟨m, hmlt⟩, hperm.mem_iff.mp (s.get_mem _ _), le_refl _⟩,
      ⟨s.get ⟨m, hmlt⟩, hperm.mem_iff.mp (s.get_mem _ _), le_refl _⟩⟩

/-- Every kernel sample read by the Hampel pass is an element of the
decoded height field. -/
theorem get5x5Kernel_mem {heights : List ℚ} {w h : ℕ} (x y : ℕ)
    (hlen : heights.length = w * h) :
    ∀ v ∈ terrainFilters.get5x5KernelHeights heights w h x y, v ∈ heights := by
  intro v hv
  unfold terrainFilters.get5x5KernelHeights at hv
  obtain ⟨p, hp, hv⟩ := List.mem_filterMap.mp hv
  by_cases hc : 0 ≤ p.1 ∧ p.1 < (w : ℤ) ∧ 0 ≤ p.2 ∧ p.2 < (h : ℤ)
  · rw [if_pos hc] at hv
    obtain ⟨h0x, hxw, h0y, hyh⟩ := hc
    have hx' : p.1.toNat < w := by omega
    have hy' : p.2.toNat < h := by omega
    have hidx : p.2.toNat * w + p.1.toNat < heights.length := by
      rw [hlen]
      calc p.2.toNat * w + p.1.toNat < p.2.toNat * w + w := by omega
        _ = (p.2.toNat + 1) * w := by ring
        _ ≤ h * w := Nat.mul_le_mul_right w (by omega)
        _ = w * h := Nat.mul_comm h w
    rw [Option.some_inj] at hv
    rw [← hv, List.getD_eq_getElem _ _ hidx]
    exact List.getElem_mem hidx
  · rw [if_neg hc] at hv
    exact absurd hv (by simp)

/-- C9: every value in the output of `applyHampelFilter` is bounded
below and above by elements of the decoded (8000-capped) input height
field — each output pixel is its own decoded value or the median of a
non-empty multiset of decoded values, so the filter never introduces a
new global minimum or maximum. -/
theorem claim9_hampel_bounded (data : List ℕ) (w h : ℕ) :
    ∀ v ∈ terrainFilters.applyHampelFilter data w h,
      (∃ a ∈ terrainFilters.decodeHeights data w h, a ≤ v)
      ∧ ∃ b ∈ terrainFilters.decodeHeights data w h, v ≤ b := by
  intro v hv
  have hlen : (terrainFilters.decodeHeights data w h).length = w * h := by
    simp [terrainFilters.decodeHeights]
  unfold terrainFilters.applyHampelFilter at hv
  obtain ⟨y, hy, hv⟩ := List.mem_flatMap.mp hv
  obtain ⟨x, hx, hv⟩ := List.mem_map.mp hv
  have hxw : x < w := List.mem_range.mp hx
  have hyh : y < h := List.mem_range.mp hy
  set heights := terrainFilters.decodeHeights data w h with hh
  have hcenter : heights.getD (y * w + x) 0 ∈ heights := by
    have hidx : y * w + x < heights.length := by
      rw [hlen]
      calc y * w + x < y * w + w := by omega
        _ = (y + 1) * w := by ring
        _ ≤ h * w := Nat.mul_le_mul_right w (by omega)
        _ = w * h := Nat.mul_comm h w
    rw [List.getD_eq_getElem _ _ hidx]
    exact List.getElem_mem hidx
  rw [← hv]
  unfold terrainFilters.hampelPixel
  by_cases h9 : 9 ≤ (terrainFilters.get5x5KernelHeights heights w h x y).length
  · rw [if_pos h9]
    have hkne : terrainFilters.get5x5KernelHeights heights w h x y ≠ [] := by
      intro habs
      rw [habs] at h9
      simp at h9
    obtain ⟨⟨a, ha, hale⟩, ⟨b, hb, hble⟩⟩ :=
      calculateMedian_bounds _ hkne
    by_cases hspike : terrainFilters.HAMPEL_THRESHOLD_MULTIPLIER *
        (terrainFilters.calculateMAD (terrainFilters.get5x5KernelHeights heights w h x y)
          (terrainFilters.calculateMedian (terrainFilters.get5x5KernelHeights heights w h x y))
          + 1/100)
        < |heights.getD (y * w + x) 0 -
            terrainFilters.calculateMedian (terrainFilters.get5x5KernelHeights heights w h x y)|
    · rw [if_pos hspike]
      exact ⟨⟨a, get5x5Kernel_mem x y hlen a ha, hale⟩,
        ⟨b, get5x5Kernel_mem x y hlen b hb, hble⟩⟩
    · rw [if_neg hspike]
      exact ⟨⟨_, hcenter, le_refl _⟩, ⟨_, hcenter, le_refl _⟩⟩
  · rw [if_neg h9]
    exact ⟨⟨_, hcenter, le_refl _⟩, ⟨_, hcenter, le_refl _⟩⟩


set_option maxRecDepth 400000 in
unseal Rat.add Rat.mul Rat.sub Rat.inv in
/-- Witness for C9 at the concrete 5×5 spike raster, for the output
value `100`. -/
theorem claim9_hampel_bounded_witness :
    (∃ a ∈ terrainFilters.decodeHeights hampelSpikeImageData 5 5, a ≤ 100)
    ∧ ∃ b ∈ terrainFilters.decodeHeights hampelSpikeImageData 5 5, (100 : ℚ) ≤ b :=
  claim9_hampel_bounded hampelSpikeImageData 5 5 100 (by decide)

/-! ## C3 — zoom scan characterization -/

/-- A broken scan state is frozen for the rest of the fold. -/
theorem zfold_broken (f : ℕ → ℤ) (m : ℤ) (l : List ℕ) (a : ℤ) :
    l.foldl (tileUtils.zstep f m) (a, true) = (a, true) := by
  induction l with
  | nil => rfl
  | cons z l ih => simpa [tileUtils.zstep] using ih

/-- If every zoom below `n` is within budget, the scan over
`range n` ends unbroken at `n - 1` (or at the seed for `n = 0`). -/
theorem zfold_allok (f : ℕ → ℤ) (m : ℤ) (n : ℕ) (a : ℤ)
    (h : ∀ j < n, f j ≤ m) :
    (List.range n).foldl (tileUtils.zstep f m) (a, false)
      = (if n = 0 then a else ((n : ℤ) - 1), false) := by
  induction n with
  | zero => rfl
  | succ n ih =>
    rw [List.range_succ, List.foldl_append,
      ih (fun j hj => h j (by omega))]
    have hn : f n ≤ m := h n (by omega)
    rcases Nat.eq_zero_or_pos n with h0 | h0
    · subst h0
      simp [tileUtils.zstep, hn]
    · simp only [List.foldl_cons, List.foldl_nil, tileUtils.zstep, hn, if_true]
      rw [if_neg (by omega : ¬(n = 0)), if_neg (by omega : ¬(n + 1 = 0))]
      simp only [Bool.false_eq_true, if_false, if_pos hn]
      refine Prod.ext ?_ rfl
      push_cast
      ring

/-- If `j0 < n` is the first zoom over budget, the scan over `range n`
breaks there, with recorded zoom `j0 - 1` (or the untouched seed when
`j0 = 0`). -/
theorem zfold_firstfail (f : ℕ → ℤ) (m : ℤ) (n j0 : ℕ) (a : ℤ)
    (hj0n : j0 < n) (hfail : m < f j0) (hok : ∀ j < j0, f j ≤ m) :
    (List.range n).foldl (tileUtils.zstep f m) (a, false)
      = (if j0 = 0 then a else ((j0 : ℤ) - 1), true) := by
  have hsplit : List.range n
      = List.range (j0 + 1) ++ (List.range (n - (j0 + 1))).map (j0 + 1 + ·) := by
    rw [← List.range_add]
    congr 1
    omega
  rw [hsplit, List.foldl_append, List.range_succ, List.foldl_append,
    zfold_allok f m j0 a hok]
  have hstep : (tileUtils.zstep f m) (if j0 = 0 then a else ((j0 : ℤ) - 1), false) j0
      = (if j0 = 0 then a else ((j0 : ℤ) - 1), true) := by
    simp only [tileUtils.zstep, if_neg (by simp : ¬False)]
    rw [if_neg (by simp), if_neg (by omega : ¬f j0 ≤ m)]
  simp only [List.foldl_cons, List.foldl_nil, hstep]
  exact zfold_broken f m _ _

/-- `calculateZoomLevel` when zoom `j0 ≤ 18` is the first over budget:
`clamp(j0 - 1)` for `j0 ≥ 1`, and the untouched initial `zoom = 10`
when already zoom 0 exceeds the budget. -/
theorem calculateZoomLevel_of_firstfail (bbox : BoundingBox) (m : ℤ) (j0 : ℕ)
    (hj : j0 ≤ 18) (hfail : m < tileUtils.totalTiles bbox j0)
    (hok : ∀ j < j0, tileUtils.totalTiles bbox j ≤ m) :
    tileUtils.calculateZoomLevel bbox m
      = if j0 = 0 then 10 else max 8 (min ((j0 : ℤ) - 1) 15) := by
  unfold tileUtils.calculateZoomLevel
  rw [zfold_firstfail (tileUtils.totalTiles bbox) m 19 j0 10 (by omega) hfail hok]
  rcases Nat.eq_zero_or_pos j0 with h0 | h0
  · subst h0
    norm_num
  · rw [if_neg (by omega), if_neg (by omega)]

/-- `calculateZoomLevel` when every zoom `0..18` is within budget:
the scan ends at 18 and the clamp returns 15. -/
theorem calculateZoomLevel_of_allok (bbox : BoundingBox) (m : ℤ)
    (h : ∀ j ≤ 18, tileUtils.totalTiles bbox j ≤ m) :
    tileUtils.calculateZoomLevel bbox m = 15 := by
  unfold tileUtils.calculateZoomLevel
  rw [zfold_allok (tileUtils.totalTiles bbox) m 19 10 (fun j hj => h j (by omega))]
  norm_num

/-- The `[8, 15]` clamp, unconditionally. -/
theorem calculateZoomLevel_range (bbox : BoundingBox) (m : ℤ) :
    8 ≤ tileUtils.calculateZoomLevel bbox m
    ∧ tileUtils.calculateZoomLevel bbox m ≤ 15 := by
  unfold tileUtils.calculateZoomLevel
  exact ⟨le_max_left _ _, max_le (by norm_num) (min_le_right _ _)⟩

/-- Monotonicity of `calculateZoomLevel` from pointwise tile-count
monotonicity, provided the larger box is within budget at zoom 0 (this
last hypothesis is what fails at extreme polar latitudes). -/
theorem calculateZoomLevel_mono_of_counts {B Bp : BoundingBox} {m : ℤ}
    (hpt : ∀ j ≤ 18, tileUtils.totalTiles B j ≤ tileUtils.totalTiles Bp j)
    (h0 : tileUtils.totalTiles Bp 0 ≤ m) :
    tileUtils.calculateZoomLevel Bp m ≤ tileUtils.calculateZoomLevel B m := by
  classical
  by_cases hex : ∃ j, j ≤ 18 ∧ m < tileUtils.totalTiles Bp j
  · obtain ⟨j1, hj1, hfail1⟩ := hex
    have hP : ∃ j, j ≤ 18 ∧ m < tileUtils.totalTiles Bp j := ⟨j1, hj1, hfail1⟩
    set j0p := Nat.find hP with hj0p
    obtain ⟨hj0ple, hj0pfail⟩ := Nat.find_spec hP
    rw [← hj0p] at hj0ple hj0pfail
    have hj0pok : ∀ j < j0p, tileUtils.totalTiles Bp j ≤ m := by
      intro j hj
      have := Nat.find_min hP hj
      push_neg at this
      exact this (by omega)
    have hj0ppos : 0 < j0p := by
      rcases Nat.eq_zero_or_pos j0p with hz | hz
      · rw [hz] at hj0pfail
        omega
      · exact hz
    have hBp : tileUtils.calculateZoomLevel Bp m
        = max 8 (min ((j0p : ℤ) - 1) 15) := by
      rw [calculateZoomLevel_of_firstfail Bp m j0p hj0ple hj0pfail hj0pok,
        if_neg (by omega)]
    by_cases hexB : ∃ j, j ≤ 18 ∧ m < tileUtils.totalTiles B j
    · set j0 := Nat.find hexB with hj0
      obtain ⟨hj0le, hj0fail⟩ := Nat.find_spec hexB
      rw [← hj0] at hj0le hj0fail
      have hj0ok : ∀ j < j0, tileUtils.totalTiles B j ≤ m := by
        intro j hj
        have := Nat.find_min hexB hj
        push_neg at this
        exact this (by omega)
      have hj0pos : 0 < j0 := by
        rcases Nat.eq_zero_or_pos j0 with hz | hz
        · rw [hz] at hj0fail
          have := hpt 0 (by omega)
          omega
        · exact hz
      have hB : tileUtils.calculateZoomLevel B m
          = max 8 (min ((j0 : ℤ) - 1) 15) := by
        rw [calculateZoomLevel_of_firstfail B m j0 hj0le hj0fail hj0ok,
          if_neg (by omega)]
      have hle : j0p ≤ j0 := by
        apply Nat.find_min' hP
        exact ⟨hj0le, lt_of_lt_of_le hj0fail (hpt j0 hj0le)⟩
      rw [hB, hBp]
      have : ((j0p : ℤ) - 1) ≤ ((j0 : ℤ) - 1) := by
        push_cast
        omega
      exact max_le_max le_rfl (min_le_min this le_rfl)
    · push_neg at hexB
      have hB : tileUtils.calculateZoomLevel B m = 15 :=
        calculateZoomLevel_of_allok B m hexB
      rw [hB, hBp]
      exact max_le (by norm_num) (min_le_right _ _)
  · push_neg at hex
    have hBp : tileUtils.calculateZoomLevel Bp m = 15 :=
      calculateZoomLevel_of_allok Bp m hex
    have hB : tileUtils.calculateZoomLevel B m = 15 :=
      calculateZoomLevel_of_allok B m
        (fun j hj => le_trans (hpt j hj) (hex j hj))
    rw [hB, hBp]

/-! ## Numeric bounds on `exp` (for the C3 mercator estimates) -/

/-- `exp n = (exp 1)^n` for natural `n`. -/
theorem exp_nat_eval (n : ℕ) : Real.exp (n : ℝ) = Real.exp 1 ^ n := by
  rw [← Real.exp_nat_mul, mul_one]

theorem exp_seven_lt : Real.exp 7 < 1097 := by
  rw [show (7:ℝ) = ((7:ℕ):ℝ) by norm_num, exp_nat_eval]
  calc Real.exp 1 ^ 7 < 2.7182818286 ^ 7 := by
        apply pow_lt_pow_left Real.exp_one_lt_d9 (Real.exp_pos 1).le
        norm_num
    _ < 1097 := by norm_num

theorem exp_six_gt : (403:ℝ) < Real.exp 6 := by
  rw [show (6:ℝ) = ((6:ℕ):ℝ) by norm_num, exp_nat_eval]
  calc (403:ℝ) < 2.7182818283 ^ 6 := by norm_num
    _ < Real.exp 1 ^ 6 := by
        apply pow_lt_pow_left Real.exp_one_gt_d9 (by norm_num)
        norm_num

theorem exp_18_ge : ((262144:ℝ)) ≤ Real.exp 18 := by
  rw [show (18:ℝ) = ((18:ℕ):ℝ) by norm_num, exp_nat_eval]
  calc (262144:ℝ) = 2 ^ 18 := by norm_num
    _ ≤ Real.exp 1 ^ 18 := by
        apply pow_le_pow_left (by norm_num)
        linarith [Real.exp_one_gt_d9]

theorem exp_34_ge : ((17179869184:ℝ)) ≤ Real.exp 34 := by
  rw [show (34:ℝ) = ((34:ℕ):ℝ) by norm_num, exp_nat_eval]
  calc (17179869184:ℝ) = 2 ^ 34 := by norm_num
    _ ≤ Real.exp 1 ^ 34 := by
        apply pow_le_pow_left (by norm_num)
        linarith [Real.exp_one_gt_d9]

theorem exp_108_le : Real.exp 108 ≤ 3 ^ 108 := by
  rw [show (108:ℝ) = ((108:ℕ):ℝ) by norm_num, exp_nat_eval]
  apply pow_le_pow_left (Real.exp_pos 1).le
  linarith [Real.exp_one_lt_d9]

/-- Numeric bound `cos(π/18) ≤ 0.985`, via the quartic Taylor bound. -/
theorem cos_pi_div_18_le : Real.cos (Real.pi/18) ≤ 0.985 := by
  have hπl : (3.141592 : ℝ) < Real.pi := Real.pi_gt_d6
  have hπu : Real.pi < 3.15 := Real.pi_lt_d2
  set x := Real.pi/18 with hx
  have hx1 : |x| ≤ 1 := by
    rw [abs_le]
    constructor <;> nlinarith
  have hb := Real.cos_bound hx1
  rw [abs_sub_le_iff] at hb
  have h1 : Real.cos x - (1 - x^2/2) ≤ |x|^4 * (5/96) := hb.1
  have hxlo : (0.1745 : ℝ) ≤ x := by nlinarith
  have hxhi : x ≤ (0.175 : ℝ) := by nlinarith
  have habs : |x| = x := abs_of_pos (by nlinarith)
  have hx4 : |x|^4 ≤ (0.175:ℝ)^4 := by
    rw [habs]
    apply pow_le_pow_left (by nlinarith) hxhi
  have hx2 : (0.1745:ℝ)^2 ≤ x^2 := by
    apply pow_le_pow_left (by norm_num) hxlo
  nlinarith

/-- On latitudes in `[-80, 80]`, the mercator sine stays below `cos(π/18)`. -/
theorem sin_deg_le {lat : ℝ} (h1 : -80 ≤ lat) (h2 : lat ≤ 80) :
    Real.sin (lat * (Real.pi/180)) ≤ Real.cos (Real.pi/18) := by
  have hπl : (3.141592 : ℝ) < Real.pi := Real.pi_gt_d6
  have hπu : Real.pi < 3.15 := Real.pi_lt_d2
  set x := lat * (Real.pi/180) with hx
  have hxhi : x ≤ 4 * Real.pi / 9 := by
    rw [hx]
    nlinarith
  have hxlo : -(Real.pi/2) ≤ x := by
    rw [hx]
    nlinarith
  have h : Real.sin x = Real.cos (Real.pi/2 - x) :=
    (Real.cos_pi_div_two_sub x).symm
  rw [h]
  apply Real.cos_le_cos_of_nonneg_of_le_pi
  · nlinarith
  · nlinarith
  · nlinarith

/-- Two-sided numeric sine bound on `[-80, 80]` degrees. -/
theorem abs_sin_deg_le {lat : ℝ} (h1 : -80 ≤ lat) (h2 : lat ≤ 80) :
    |Real.sin (lat * (Real.pi/180))| ≤ 0.985 := by
  have hc := cos_pi_div_18_le
  have hub := sin_deg_le h1 h2
  have hlb := @sin_deg_le (-lat) (by linarith) (by linarith)
  rw [show -lat * (Real.pi/180) = -(lat * (Real.pi/180)) by ring, Real.sin_neg] at hlb
  rw [abs_le]
  constructor <;> linarith

/-- The tile column is monotone in longitude. -/
theorem mercX_floor_mono {lon1 lon2 : ℝ} (h : lon1 ≤ lon2) (z : ℕ) :
    ⌊tilebelt.mercX lon1 z⌋ ≤ ⌊tilebelt.mercX lon2 z⌋ := by
  apply Int.floor_le_floor
  unfold tilebelt.mercX
  have h2 : (0:ℝ) ≤ 2^z := by positivity
  have : lon1/360 + 1/2 ≤ lon2/360 + 1/2 := by linarith
  exact mul_le_mul_of_nonneg_left this h2

/-- The tile row is antitone in latitude on `[-80, 80]` degrees. -/
theorem mercY_floor_anti {lat1 lat2 : ℝ} (ha : -80 ≤ lat1) (h12 : lat1 ≤ lat2)
    (hb : lat2 ≤ 80) (z : ℕ) :
    ⌊tilebelt.mercY lat2 z⌋ ≤ ⌊tilebelt.mercY lat1 z⌋ := by
  have hπl : (3.141592 : ℝ) < Real.pi := Real.pi_gt_d6
  have hπu : Real.pi < 3.15 := Real.pi_lt_d2
  have hπ0 : (0:ℝ) < Real.pi := by linarith
  apply Int.floor_le_floor
  have hs12 : Real.sin (lat1 * (Real.pi/180)) ≤ Real.sin (lat2 * (Real.pi/180)) := by
    apply Real.strictMonoOn_sin.monotoneOn ?_ ?_
      (by nlinarith : lat1 * (Real.pi/180) ≤ lat2 * (Real.pi/180))
    · constructor <;> nlinarith
    · constructor <;> nlinarith
  have habs1 := @abs_sin_deg_le lat1 ha (by linarith)
  have habs2 := @abs_sin_deg_le lat2 (by linarith) hb
  rw [abs_le] at habs1 habs2
  set s1 := Real.sin (lat1 * (Real.pi/180))
  set s2 := Real.sin (lat2 * (Real.pi/180))
  have hden1 : (0:ℝ) < 1 - s1 := by linarith
  have hden2 : (0:ℝ) < 1 - s2 := by linarith
  have hnum1 : (0:ℝ) < 1 + s1 := by linarith
  have hnum2 : (0:ℝ) < 1 + s2 := by linarith
  have hR : (1 + s1)/(1 - s1) ≤ (1 + s2)/(1 - s2) := by
    rw [div_le_div_iff hden1 hden2]
    nlinarith
  have hlog : Real.log ((1 + s1)/(1 - s1)) ≤ Real.log ((1 + s2)/(1 - s2)) :=
    Real.log_le_log (div_pos hnum1 hden1) hR
  show tilebelt.mercY lat2 z ≤ tilebelt.mercY lat1 z
  simp only [tilebelt.mercY]
  have h2z : (0:ℝ) ≤ 2^z := by positivity
  have hq : 1/4 * Real.log ((1 + s1)/(1 - s1)) / Real.pi
      ≤ 1/4 * Real.log ((1 + s2)/(1 - s2)) / Real.pi :=
    (div_le_div_right hπ0).mpr (by linarith)
  exact mul_le_mul_of_nonneg_left (by linarith) h2z

/-- At zoom 0 every latitude in `[-80, 80]` lands in tile row 0. -/
theorem mercY_zero_floor {lat : ℝ} (h1 : -80 ≤ lat) (h2 : lat ≤ 80) :
    ⌊tilebelt.mercY lat 0⌋ = 0 := by
  have hπl : (3.141592 : ℝ) < Real.pi := Real.pi_gt_d6
  have hπu : Real.pi < 3.15 := Real.pi_lt_d2
  have hπ0 : (0:ℝ) < Real.pi := by linarith
  have habs := abs_sin_deg_le h1 h2
  rw [abs_le] at habs
  set s := Real.sin (lat * (Real.pi/180)) with hs
  have hden : (0:ℝ) < 1 - s := by linarith
  have hnum : (0:ℝ) < 1 + s := by linarith
  have hRpos : (0:ℝ) < (1 + s)/(1 - s) := div_pos hnum hden
  have hRhi : (1 + s)/(1 - s) ≤ 133 := by
    rw [div_le_iff hden]
    nlinarith
  have hRlo : (1:ℝ)/133 ≤ (1 + s)/(1 - s) := by
    rw [div_le_div_iff (by norm_num) hden]
    nlinarith
  have hlog_hi : Real.log ((1 + s)/(1 - s)) < 2 * Real.pi := by
    have h1e : (1 + s)/(1 - s) < Real.exp (2 * Real.pi) := by
      calc (1 + s)/(1 - s) ≤ 133 := hRhi
        _ < 403 := by norm_num
        _ < Real.exp 6 := exp_six_gt
        _ ≤ Real.exp (2 * Real.pi) := Real.exp_le_exp.mpr (by nlinarith)
    exact (Real.log_lt_iff_lt_exp hRpos).mpr h1e
  have hlog_lo : -(2 * Real.pi) < Real.log ((1 + s)/(1 - s)) := by
    have h1e : Real.exp (-(2 * Real.pi)) < (1 + s)/(1 - s) := by
      calc Real.exp (-(2 * Real.pi)) ≤ Real.exp (-6) :=
            Real.exp_le_exp.mpr (by nlinarith)
        _ = 1 / Real.exp 6 := by rw [Real.exp_neg, inv_eq_one_div]
        _ < 1 / 403 := by
            apply one_div_lt_one_div_of_lt (by norm_num) exp_six_gt
        _ < 1/133 := by norm_num
        _ ≤ (1 + s)/(1 - s) := hRlo
    exact (Real.lt_log_iff_exp_lt hRpos).mpr h1e
  have hval : tilebelt.mercY lat 0
      = 1/2 - 1/4 * Real.log ((1 + s)/(1 - s)) / Real.pi := by
    simp only [tilebelt.mercY, ← hs]
    ring
  have hql : -(1/2 : ℝ) < 1/4 * Real.log ((1 + s)/(1 - s)) / Real.pi := by
    rw [show -(1/2 : ℝ) = (1/4) * (-(2 * Real.pi)) / Real.pi by field_simp; ring]
    apply (div_lt_div_right hπ0).mpr
    nlinarith
  have hqh : 1/4 * Real.log ((1 + s)/(1 - s)) / Real.pi < 1/2 := by
    rw [show (1/2 : ℝ) = (1/4) * (2 * Real.pi) / Real.pi by field_simp; ring]
    apply (div_lt_div_right hπ0).mpr
    nlinarith
  rw [hval, Int.floor_eq_iff]
  constructor
  · push_cast
    linarith
  · push_cast
    linarith

/-- The per-zoom tile count of `calculateZoomLevel` is monotone under
bbox containment, for boxes within `[-80, 80]` latitude. -/
theorem totalTiles_mono {B Bp : BoundingBox}
    (hlon1 : Bp.minLon ≤ B.minLon) (hlon2 : B.maxLon ≤ Bp.maxLon)
    (hlat1 : Bp.minLat ≤ B.minLat) (hlat2 : B.maxLat ≤ Bp.maxLat)
    (hBlon : B.minLon ≤ B.maxLon) (hBlat : B.minLat ≤ B.maxLat)
    (hp80a : -80 ≤ Bp.minLat) (hp80b : Bp.maxLat ≤ 80) (z : ℕ) :
    tileUtils.totalTiles B z ≤ tileUtils.totalTiles Bp z := by
  have h80a : -80 ≤ B.minLat := by linarith
  have h80b : B.maxLat ≤ 80 := by linarith
  unfold tileUtils.totalTiles tilebelt.pointToTile
  simp only
  have hx1 : ⌊tilebelt.mercX Bp.minLon z⌋ ≤ ⌊tilebelt.mercX B.minLon z⌋ :=
    mercX_floor_mono hlon1 z
  have hx2 : ⌊tilebelt.mercX B.maxLon z⌋ ≤ ⌊tilebelt.mercX Bp.maxLon z⌋ :=
    mercX_floor_mono hlon2 z
  have hx3 : ⌊tilebelt.mercX B.minLon z⌋ ≤ ⌊tilebelt.mercX B.maxLon z⌋ :=
    mercX_floor_mono hBlon z
  have hy1 : ⌊tilebelt.mercY B.maxLat z⌋ ≤ ⌊tilebelt.mercY B.minLat z⌋ :=
    mercY_floor_anti h80a hBlat h80b z
  have hy2 : ⌊tilebelt.mercY Bp.maxLat z⌋ ≤ ⌊tilebelt.mercY B.maxLat z⌋ :=
    mercY_floor_anti (by linarith) hlat2 (by linarith) z
  have hy3 : ⌊tilebelt.mercY B.minLat z⌋ ≤ ⌊tilebelt.mercY Bp.minLat z⌋ :=
    mercY_floor_anti (by linarith) hlat1 (by linarith) z
  rw [abs_of_nonneg (by omega : (0:ℤ) ≤ ⌊tilebelt.mercX B.maxLon z⌋
      - ⌊tilebelt.mercX B.minLon z⌋),
    abs_of_nonneg (by omega : (0:ℤ) ≤ ⌊tilebelt.mercY B.minLat z⌋
      - ⌊tilebelt.mercY B.maxLat z⌋),
    abs_of_nonneg (by omega : (0:ℤ) ≤ ⌊tilebelt.mercX Bp.maxLon z⌋
      - ⌊tilebelt.mercX Bp.minLon z⌋),
    abs_of_nonneg (by omega : (0:ℤ) ≤ ⌊tilebelt.mercY Bp.minLat z⌋
      - ⌊tilebelt.mercY Bp.maxLat z⌋)]
  apply mul_le_mul (by omega) (by omega) (by omega) (by omega)

/-- At zoom 0 a box within `[-180, 180] × [-80, 80]` needs at most two
tiles, well within the budget of 16. -/
theorem totalTiles_zero_le {Bp : BoundingBox}
    (h1 : -180 ≤ Bp.minLon) (h2 : Bp.maxLon ≤ 180) (hlon : Bp.minLon ≤ Bp.maxLon)
    (h3 : -80 ≤ Bp.minLat) (h4 : Bp.maxLat ≤ 80) (hlat : Bp.minLat ≤ Bp.maxLat) :
    tileUtils.totalTiles Bp 0 ≤ 16 := by
  unfold tileUtils.totalTiles tilebelt.pointToTile
  simp only
  have hme0 : tilebelt.mercX Bp.minLon 0 = Bp.minLon/360 + 1/2 := by
    unfold tilebelt.mercX
    norm_num
  have hxlo : (0:ℤ) ≤ ⌊tilebelt.mercX Bp.minLon 0⌋ := by
    apply Int.le_floor.mpr
    rw [hme0]
    push_cast
    nlinarith
  have hme : ∀ lon : ℝ, tilebelt.mercX lon 0 = lon/360 + 1/2 := by
    intro lon
    unfold tilebelt.mercX
    norm_num
  have hxhi : ⌊tilebelt.mercX Bp.maxLon 0⌋ ≤ 1 := by
    have hle : tilebelt.mercX Bp.maxLon 0 ≤ 1 := by
      rw [hme]
      nlinarith
    calc ⌊tilebelt.mercX Bp.maxLon 0⌋ ≤ ⌊(1:ℝ)⌋ := Int.floor_le_floor hle
      _ = 1 := Int.floor_one
  have hxlo2 : (0:ℤ) ≤ ⌊tilebelt.mercX Bp.minLon 0⌋ := hxlo
  have hxmono : ⌊tilebelt.mercX Bp.minLon 0⌋ ≤ ⌊tilebelt.mercX Bp.maxLon 0⌋ :=
    mercX_floor_mono hlon 0
  have hy1 : ⌊tilebelt.mercY Bp.minLat 0⌋ = 0 :=
    mercY_zero_floor h3 (by linarith)
  have hy2 : ⌊tilebelt.mercY Bp.maxLat 0⌋ = 0 :=
    mercY_zero_floor (by linarith) h4
  rw [hy1, hy2]
  rw [abs_of_nonneg (by omega : (0:ℤ) ≤ ⌊tilebelt.mercX Bp.maxLon 0⌋
      - ⌊tilebelt.mercX Bp.minLon 0⌋)]
  have : |(0:ℤ) - 0| = 0 := by norm_num
  rw [this]
  nlinarith [hxlo, hxhi, hxmono]

/-- `mercY` at zoom 0, written without the `let`. -/
theorem mercY_zero_val (lat : ℝ) :
    tilebelt.mercY lat 0
      = 1/2 - 1/4 * Real.log ((1 + Real.sin (lat * (Real.pi/180)))
          / (1 - Real.sin (lat * (Real.pi/180)))) / Real.pi := by
  simp only [tilebelt.mercY]
  ring


set_option maxHeartbeats 1000000 in
/-- At zoom 0, latitude 89° lands in tile row `-1`. -/
theorem mercY_zero_floor_89 : ⌊tilebelt.mercY 89 0⌋ = -1 := by
  have hπl : (3.141592 : ℝ) < Real.pi := Real.pi_gt_d6
  have hπu : Real.pi < 3.141593 := Real.pi_lt_d6
  have hπ0 : (0:ℝ) < Real.pi := by linarith
  have hsin : Real.sin ((89:ℝ) * (Real.pi/180)) = Real.cos (Real.pi/180) := by
    rw [show (89:ℝ) * (Real.pi/180) = Real.pi/2 - Real.pi/180 by ring,
      Real.sin_pi_div_two_sub]
  set x := Real.pi/180 with hxdef
  have hxlo : (3.141592/180 : ℝ) ≤ x := by
    rw [hxdef]
    linarith
  have hxhi : x ≤ (3.141593/180 : ℝ) := by
    rw [hxdef]
    linarith
  have hx1 : |x| ≤ 1 := by
    rw [abs_le]
    constructor <;> linarith
  have hb := Real.cos_bound hx1
  rw [abs_sub_le_iff] at hb
  have habs : |x| = x := abs_of_pos (by linarith)
  have hx2lo : ((3.141592/180:ℝ))^2 ≤ x^2 := pow_le_pow_left (by norm_num) hxlo 2
  have hx2hi : x^2 ≤ ((3.141593/180:ℝ))^2 := pow_le_pow_left (by positivity) hxhi 2
  have hx4hi : |x|^4 ≤ ((3.141593/180:ℝ))^4 := by
    rw [habs]
    exact pow_le_pow_left (by positivity) hxhi 4
  set s := Real.cos x with hsdef
  have hs_hi : s ≤ 1 - (0.00015230 : ℝ) := by nlinarith [hb.1, hb.2]
  have hs_lo : 1 - (0.00015232 : ℝ) ≤ s := by nlinarith [hb.1, hb.2]
  have hden : (0:ℝ) < 1 - s := by linarith
  have hnum : (0:ℝ) < 1 + s := by linarith
  have hRpos : (0:ℝ) < (1 + s)/(1 - s) := div_pos hnum hden
  have hRlo : (13000:ℝ) ≤ (1 + s)/(1 - s) := by
    rw [le_div_iff hden]
    linarith
  have hRhi : (1 + s)/(1 - s) ≤ 13200 := by
    rw [div_le_iff hden]
    linarith
  have hlog_lo : 2 * Real.pi < Real.log ((1 + s)/(1 - s)) := by
    apply (Real.lt_log_iff_exp_lt hRpos).mpr
    calc Real.exp (2 * Real.pi) ≤ Real.exp 7 := Real.exp_le_exp.mpr (by linarith)
      _ < 1097 := exp_seven_lt
      _ < 13000 := by norm_num
      _ ≤ (1 + s)/(1 - s) := hRlo
  have hlog_hi : Real.log ((1 + s)/(1 - s)) ≤ 6 * Real.pi := by
    apply (Real.log_le_iff_le_exp hRpos).mpr
    calc (1 + s)/(1 - s) ≤ 13200 := hRhi
      _ ≤ 262144 := by norm_num
      _ ≤ Real.exp 18 := exp_18_ge
      _ ≤ Real.exp (6 * Real.pi) := Real.exp_le_exp.mpr (by linarith)
  have hq_lo : (1/2 : ℝ) < 1/4 * Real.log ((1 + s)/(1 - s)) / Real.pi := by
    rw [show (1/2 : ℝ) = 1/4 * (2 * Real.pi) / Real.pi by field_simp; ring]
    apply (div_lt_div_right hπ0).mpr
    linarith
  have hq_hi : 1/4 * Real.log ((1 + s)/(1 - s)) / Real.pi ≤ 3/2 := by
    rw [show (3/2 : ℝ) = 1/4 * (6 * Real.pi) / Real.pi by field_simp; ring]
    apply (div_le_div_right hπ0).mpr
    linarith
  rw [mercY_zero_val, hsin, Int.floor_eq_iff]
  constructor
  · push_cast
    linarith
  · push_cast
    linarith

set_option maxHeartbeats 1000000 in
/-- At zoom 0, latitude 89.5° lands in a tile row between `-8` and `-1`. -/
theorem mercY_zero_floor_895 :
    -8 ≤ ⌊tilebelt.mercY (89.5 : ℝ) 0⌋ ∧ ⌊tilebelt.mercY (89.5 : ℝ) 0⌋ ≤ -1 := by
  have hπl : (3.141592 : ℝ) < Real.pi := Real.pi_gt_d6
  have hπu : Real.pi < 3.141593 := Real.pi_lt_d6
  have hπ0 : (0:ℝ) < Real.pi := by linarith
  have hsin : Real.sin ((89.5:ℝ) * (Real.pi/180)) = Real.cos (Real.pi/360) := by
    rw [show (89.5:ℝ) * (Real.pi/180) = Real.pi/2 - Real.pi/360 by ring,
      Real.sin_pi_div_two_sub]
  set x := Real.pi/360 with hxdef
  have hxlo : (3.141592/360 : ℝ) ≤ x := by
    rw [hxdef]
    linarith
  have hxhi : x ≤ (3.141593/360 : ℝ) := by
    rw [hxdef]
    linarith
  have hx1 : |x| ≤ 1 := by
    rw [abs_le]
    constructor <;> linarith
  have hb := Real.cos_bound hx1
  rw [abs_sub_le_iff] at hb
  have habs : |x| = x := abs_of_pos (by linarith)
  have hx2lo : ((3.141592/360:ℝ))^2 ≤ x^2 := pow_le_pow_left (by norm_num) hxlo 2
  have hx2hi : x^2 ≤ ((3.141593/360:ℝ))^2 := pow_le_pow_left (by positivity) hxhi 2
  have hx4hi : |x|^4 ≤ ((3.141593/360:ℝ))^4 := by
    rw [habs]
    exact pow_le_pow_left (by positivity) hxhi 4
  set s := Real.cos x with hsdef
  have hs_hi : s ≤ 1 - (0.000038076 : ℝ) := by nlinarith [hb.1, hb.2]
  have hs_lo : 1 - (0.000038078 : ℝ) ≤ s := by nlinarith [hb.1, hb.2]
  have hden : (0:ℝ) < 1 - s := by linarith
  have hnum : (0:ℝ) < 1 + s := by linarith
  have hRpos : (0:ℝ) < (1 + s)/(1 - s) := div_pos hnum hden
  have hRlo : (52000:ℝ) ≤ (1 + s)/(1 - s) := by
    rw [le_div_iff hden]
    linarith
  have hRhi : (1 + s)/(1 - s) ≤ 53000 := by
    rw [div_le_iff hden]
    linarith
  have hlog_lo : 2 * Real.pi < Real.log ((1 + s)/(1 - s)) := by
    apply (Real.lt_log_iff_exp_lt hRpos).mpr
    calc Real.exp (2 * Real.pi) ≤ Real.exp 7 := Real.exp_le_exp.mpr (by linarith)
      _ < 1097 := exp_seven_lt
      _ < 52000 := by norm_num
      _ ≤ (1 + s)/(1 - s) := hRlo
  have hlog_hi : Real.log ((1 + s)/(1 - s)) ≤ 34 * Real.pi := by
    apply (Real.log_le_iff_le_exp hRpos).mpr
    calc (1 + s)/(1 - s) ≤ 53000 := hRhi
      _ ≤ 17179869184 := by norm_num
      _ ≤ Real.exp 34 := exp_34_ge
      _ ≤ Real.exp (34 * Real.pi) := Real.exp_le_exp.mpr (by linarith)
  have hq_lo : (1/2 : ℝ) < 1/4 * Real.log ((1 + s)/(1 - s)) / Real.pi := by
    rw [show (1/2 : ℝ) = 1/4 * (2 * Real.pi) / Real.pi by field_simp; ring]
    apply (div_lt_div_right hπ0).mpr
    linarith
  have hq_hi : 1/4 * Real.log ((1 + s)/(1 - s)) / Real.pi ≤ 17/2 := by
    rw [show (17/2 : ℝ) = 1/4 * (34 * Real.pi) / Real.pi by field_simp; ring]
    apply (div_le_div_right hπ0).mpr
    linarith
  constructor
  · apply Int.le_floor.mpr
    rw [mercY_zero_val, hsin]
    push_cast
    linarith
  · have hlt : ⌊tilebelt.mercY (89.5 : ℝ) 0⌋ < 0 := by
      apply Int.floor_lt.mpr
      rw [mercY_zero_val, hsin]
      push_cast
      linarith
    omega

set_option maxHeartbeats 1000000 in
/-- At zoom 0, latitude `90 - 10⁻⁴⁰` lands in tile row `-9` or beyond:
the mercator stretch near the pole makes the zoom-0 tile span huge. -/
theorem mercY_zero_floor_pole :
    ⌊tilebelt.mercY ((90 : ℝ) - 1/10^40) 0⌋ ≤ -9 := by
  have hπl : (3.141592 : ℝ) < Real.pi := Real.pi_gt_d6
  have hπu : Real.pi < 3.141593 := Real.pi_lt_d6
  have hπ0 : (0:ℝ) < Real.pi := by linarith
  have hsin : Real.sin (((90:ℝ) - 1/10^40) * (Real.pi/180))
      = Real.cos (Real.pi/(180 * 10^40)) := by
    rw [show ((90:ℝ) - 1/10^40) * (Real.pi/180)
        = Real.pi/2 - Real.pi/(180 * 10^40) by ring,
      Real.sin_pi_div_two_sub]
  set x := Real.pi/(180 * 10^40) with hxdef
  have hxlo : ((17:ℝ)/10^43) ≤ x := by
    rw [hxdef, le_div_iff (by positivity)]
    nlinarith
  have hxhi : x ≤ ((18:ℝ)/10^43) := by
    rw [hxdef, div_le_iff (by positivity)]
    nlinarith
  have hx1 : |x| ≤ 1 := by
    rw [abs_le]
    constructor <;> nlinarith
  have hb := Real.cos_bound hx1
  rw [abs_sub_le_iff] at hb
  have habs : |x| = x := abs_of_pos (by nlinarith)
  have hx2lo : (((17:ℝ)/10^43))^2 ≤ x^2 := pow_le_pow_left (by positivity) hxlo 2
  have hx2hi : x^2 ≤ (((18:ℝ)/10^43))^2 := pow_le_pow_left (by positivity) hxhi 2
  have hx4hi : |x|^4 ≤ (((18:ℝ)/10^43))^4 := by
    rw [habs]
    exact pow_le_pow_left (by positivity) hxhi 4
  set s := Real.cos x with hsdef
  have he2lo : (((17:ℝ)/10^43))^2 = 289/10^86 := by norm_num
  have he2hi : (((18:ℝ)/10^43))^2 = 324/10^86 := by norm_num
  have he4 : (((18:ℝ)/10^43))^4 = 104976/10^172 := by norm_num
  rw [he2lo] at hx2lo
  rw [he2hi] at hx2hi
  rw [he4] at hx4hi
  have hs_hi : s ≤ 1 - (1:ℝ)/10^84 := by nlinarith [hb.1, hb.2]
  have hden_hi : 1 - s ≤ (4:ℝ)/10^84 := by nlinarith [hb.1, hb.2]
  have hs_lo : (0:ℝ) ≤ s := by nlinarith [hb.1, hb.2]
  have hden : (0:ℝ) < 1 - s := by
    have : (0:ℝ) < (1:ℝ)/10^84 := by positivity
    linarith
  have hnum : (0:ℝ) < 1 + s := by linarith
  have hRpos : (0:ℝ) < (1 + s)/(1 - s) := div_pos hnum hden
  have hRlo : ((10:ℝ)^83) ≤ (1 + s)/(1 - s) := by
    rw [le_div_iff hden]
    nlinarith
  have hlog_lo : 34 * Real.pi < Real.log ((1 + s)/(1 - s)) := by
    apply (Real.lt_log_iff_exp_lt hRpos).mpr
    calc Real.exp (34 * Real.pi) ≤ Real.exp 108 :=
          Real.exp_le_exp.mpr (by linarith)
      _ ≤ 3 ^ 108 := exp_108_le
      _ < (10:ℝ)^83 := by norm_num
      _ ≤ (1 + s)/(1 - s) := hRlo
  have hq_lo : (17/2 : ℝ) < 1/4 * Real.log ((1 + s)/(1 - s)) / Real.pi := by
    rw [show (17/2 : ℝ) = 1/4 * (34 * Real.pi) / Real.pi by field_simp; ring]
    apply (div_lt_div_right hπ0).mpr
    linarith
  have hlt : ⌊tilebelt.mercY ((90 : ℝ) - 1/10^40) 0⌋ < -8 := by
    apply Int.floor_lt.mpr
    rw [mercY_zero_val, hsin]
    push_cast
    linarith
  omega

/-- Longitude `-180` is tile column 0 at every zoom. -/
theorem mercX_floor_neg180 (z : ℕ) : ⌊tilebelt.mercX (-180) z⌋ = 0 := by
  have h : tilebelt.mercX (-180) z = 0 := by
    unfold tilebelt.mercX
    norm_num
  rw [h]
  exact Int.floor_zero

/-- Longitude `180` maps to (out-of-range) tile column `2^z`. -/
theorem mercX_floor_pos180 (z : ℕ) : ⌊tilebelt.mercX 180 z⌋ = 2^z := by
  have h : tilebelt.mercX (180:ℝ) z = ((2^z : ℤ) : ℝ) := by
    unfold tilebelt.mercX
    push_cast
    ring
  rw [h, Int.floor_intCast]

/-- The near-pole box `[-180, 180] × [89, 90 - 10⁻⁴⁰]` already exceeds
the 16-tile budget at zoom 0 (it spans 2 columns and ≥ 9 rows). -/
theorem poleBox_count0 :
    16 < tileUtils.totalTiles ⟨-180, 89, 180, (90:ℝ) - 1/10^40⟩ 0 := by
  have hpole := mercY_zero_floor_pole
  simp only [tileUtils.totalTiles, tilebelt.pointToTile]
  rw [mercX_floor_neg180, mercX_floor_pos180, mercY_zero_floor_89]
  set t := ⌊tilebelt.mercY ((90 : ℝ) - 1/10^40) 0⌋ with ht
  have habs1 : |(2:ℤ)^0 - 0| = 1 := by norm_num
  have habs2 : |(-1:ℤ) - t| = -1 - t := abs_of_nonneg (by omega)
  rw [habs1, habs2]
  omega

/-- So `calculateZoomLevel` breaks immediately on the near-pole box and
returns its untouched initial value `zoom = 10`. -/
theorem poleBox_czl :
    tileUtils.calculateZoomLevel ⟨-180, 89, 180, (90:ℝ) - 1/10^40⟩ 16 = 10 := by
  have h := calculateZoomLevel_of_firstfail ⟨-180, 89, 180, (90:ℝ) - 1/10^40⟩ 16 0
    (by omega) poleBox_count0 (by omega)
  simpa using h

/-- The band `[-180, 180] × [89, 89.5]` fits the budget at zoom 0. -/
theorem band_count0 :
    tileUtils.totalTiles ⟨-180, 89, 180, (89.5:ℝ)⟩ 0 ≤ 16 := by
  obtain ⟨h895a, h895b⟩ := mercY_zero_floor_895
  simp only [tileUtils.totalTiles, tilebelt.pointToTile]
  rw [mercX_floor_neg180, mercX_floor_pos180, mercY_zero_floor_89]
  set t := ⌊tilebelt.mercY (89.5 : ℝ) 0⌋ with ht
  have habs1 : |(2:ℤ)^0 - 0| = 1 := by norm_num
  have habs2 : |(-1:ℤ) - t| = -1 - t := abs_of_nonneg (by omega)
  rw [habs1, habs2]
  omega

/-- The band exceeds the budget at zoom 4 (17 columns already). -/
theorem band_count4 :
    16 < tileUtils.totalTiles ⟨-180, 89, 180, (89.5:ℝ)⟩ 4 := by
  simp only [tileUtils.totalTiles, tilebelt.pointToTile]
  rw [mercX_floor_neg180, mercX_floor_pos180]
  have habs1 : |(2:ℤ)^4 - 0| = 16 := by norm_num
  rw [habs1]
  have h2 : (0:ℤ) ≤ |⌊tilebelt.mercY 89 4⌋ - ⌊tilebelt.mercY (89.5:ℝ) 4⌋| :=
    abs_nonneg _
  nlinarith

/-- So the band's scan fails first at some zoom in `[1, 4]` and the
clamped result is 8. -/
theorem band_czl :
    tileUtils.calculateZoomLevel ⟨-180, 89, 180, (89.5:ℝ)⟩ 16 = 8 := by
  classical
  have hex : ∃ j, 16 < tileUtils.totalTiles ⟨-180, 89, 180, (89.5:ℝ)⟩ j :=
    ⟨4, band_count4⟩
  set j0 := Nat.find hex with hj0
  have hfail : 16 < tileUtils.totalTiles ⟨-180, 89, 180, (89.5:ℝ)⟩ j0 := by
    rw [hj0]
    exact Nat.find_spec hex
  have hle4 : j0 ≤ 4 := by
    rw [hj0]
    exact Nat.find_min' hex band_count4
  have hok : ∀ j < j0, tileUtils.totalTiles ⟨-180, 89, 180, (89.5:ℝ)⟩ j ≤ 16 := by
    intro j hj
    have := Nat.find_min hex (by omega : j < Nat.find hex)
    omega
  have hpos : 0 < j0 := by
    rcases Nat.eq_zero_or_pos j0 with hz | hz
    · rw [hz] at hfail
      have := band_count0
      omega
    · exact hz
  have h := calculateZoomLevel_of_firstfail ⟨-180, 89, 180, (89.5:ℝ)⟩ 16 j0
    (by omega) hfail hok
  rw [if_neg (by omega)] at h
  rw [h]
  have hmin : min ((j0:ℤ) - 1) 15 = (j0:ℤ) - 1 := min_eq_left (by
    have : (j0:ℤ) ≤ 4 := by exact_mod_cast hle4
    omega)
  rw [hmin]
  apply max_eq_left
  have : (j0:ℤ) ≤ 4 := by exact_mod_cast hle4
  omega

/-- Counterexample to C3's monotonicity: the valid, world-bounded box
`B = [-180, 180] × [89, 89.5]` is contained in
`B' = [-180, 180] × [89, 90 - 10⁻⁴⁰]`, yet
`calculateZoomLevel B' 16 = 10 > 8 = calculateZoomLevel B 16`: the
larger box blows the budget already at zoom 0, which makes the scan
break before recording anything and return its initial `zoom = 10`,
while the smaller box's scan fails only at a zoom `≤ 4` and clamps to
8.  (The `[8, 15]` range part of C3 does hold; see the amended
theorem.) -/
theorem claim3_zoom_monotonicity_counterexample :
    ((-180:ℝ) < 180 ∧ (89:ℝ) < 89.5 ∧ (-90:ℝ) ≤ 89 ∧ (89.5:ℝ) ≤ 90)
    ∧ ((89:ℝ) < 90 - 1/10^40 ∧ (90 - 1/10^40 : ℝ) ≤ 90)
    ∧ ((89:ℝ) ≤ 89 ∧ (89.5:ℝ) ≤ 90 - 1/10^40)
    ∧ tileUtils.calculateZoomLevel ⟨-180, 89, 180, (89.5:ℝ)⟩ 16 = 8
    ∧ tileUtils.calculateZoomLevel ⟨-180, 89, 180, (90:ℝ) - 1/10^40⟩ 16 = 10
    ∧ ¬(tileUtils.calculateZoomLevel ⟨-180, 89, 180, (90:ℝ) - 1/10^40⟩ 16
        ≤ tileUtils.calculateZoomLevel ⟨-180, 89, 180, (89.5:ℝ)⟩ 16) := by
  refine ⟨⟨by norm_num, by norm_num, by norm_num, by norm_num⟩,
    ⟨by norm_num, by norm_num⟩, ⟨by norm_num, by norm_num⟩,
    band_czl, poleBox_czl, ?_⟩
  rw [band_czl, poleBox_czl]
  norm_num

/-- C3 amended: (i) for every bounding box the result is within
`[8, 15]`; (ii) monotonicity — a bbox geometrically contained in
another never gets the smaller zoom — holds for valid boxes within
`[-180, 180]` longitude and latitudes within `[-80, 80]` (safely
inside the web-mercator domain, away from the polar blow-up exhibited
by the counterexample). -/
theorem claim3_zoom_range_and_mono :
    (∀ bbox : BoundingBox, 8 ≤ tileUtils.calculateZoomLevel bbox 16
      ∧ tileUtils.calculateZoomLevel bbox 16 ≤ 15)
    ∧ ∀ B Bp : BoundingBox,
        -180 ≤ Bp.minLon → Bp.maxLon ≤ 180 →
        -80 ≤ Bp.minLat → Bp.maxLat ≤ 80 →
        B.minLon ≤ B.maxLon → B.minLat ≤ B.maxLat →
        Bp.minLon ≤ Bp.maxLon → Bp.minLat ≤ Bp.maxLat →
        Bp.minLon ≤ B.minLon → B.maxLon ≤ Bp.maxLon →
        Bp.minLat ≤ B.minLat → B.maxLat ≤ Bp.maxLat →
        tileUtils.calculateZoomLevel Bp 16 ≤ tileUtils.calculateZoomLevel B 16 := by
  constructor
  · intro bbox
    exact calculateZoomLevel_range bbox 16
  · intro B Bp h1 h2 h3 h4 h5 h6 h7 h8 h9 h10 h11 h12
    apply calculateZoomLevel_mono_of_counts
    · intro j hj
      exact totalTiles_mono h9 h10 h11 h12 h5 h6 h3 h4 j
    · exact totalTiles_zero_le h1 h2 h7 h3 h4 h8

/-- Witness for the amended C3 at two concrete nested boxes. -/
theorem claim3_zoom_range_and_mono_witness :
    tileUtils.calculateZoomLevel ⟨0, 0, 30, 40⟩ 16
      ≤ tileUtils.calculateZoomLevel ⟨10, 10, 20, 20⟩ 16 :=
  claim3_zoom_range_and_mono.2 ⟨10, 10, 20, 20⟩ ⟨0, 0, 30, 40⟩
    (by norm_num) (by norm_num) (by norm_num) (by norm_num) (by norm_num)
    (by norm_num) (by norm_num) (by norm_num) (by norm_num) (by norm_num)
    (by norm_num) (by norm_num)

end TerrainProof
